import Mathlib

/-!
Shallow embedding of the `murymi/heap` allocator (src/main.rs, src/mmap.rs).

Memory model: headers live at natural-number addresses; a machine state keeps
two association lists (newest entry first), one for `Heap` (arena) headers and
one for `Block` headers, mirroring the fact that the source only ever reads a
given address at the type it last wrote there.  Reading an address that never
received a header of the requested type is undefined behaviour in the source
and is modelled as an `Except.error`.  The page provider (`mem_map` /
`mem_unmap` in src/mmap.rs) is modelled as an oracle: a list of base addresses
handed out in order; an empty oracle models `mmap` failure (`MAP_FAILED`).
Rust panics (`unwrap`, `panic!`) are modelled as `Except.error` carrying the
message together with the machine state at the moment of the panic.

Struct sizes follow the `repr(C)` layouts of the source on x86-64:
`size_of::<Block>() = 32` (three 8-byte words plus a padded bool) and
`size_of::<Heap>() = 56` (16-byte tagged `HeapGroup` plus five 8-byte fields).
Loops in the source walk raw pointer lists; they are embedded with an explicit
fuel argument, `error "fuel"` marking exhaustion (never reached on the runs
used below).
-/

namespace Halloc

def PAGE_SIZE : Nat := 4096

def TINY_HEAP_ALLOCATION_SIZE : Nat := 4 * PAGE_SIZE

def TINY_BLOCK_SIZE : Nat := TINY_HEAP_ALLOCATION_SIZE / 128

def SMALL_HEAP_ALLOCATION_SIZE : Nat := 32 * PAGE_SIZE

def SMALL_BLOCK_SIZE : Nat := SMALL_HEAP_ALLOCATION_SIZE / 128

/-- `enum HeapGroup { Tiny(usize), Small(usize), Large(usize) }`. -/
inductive HeapGroup : Type where
  | Tiny : Nat → HeapGroup
  | Small : Nat → HeapGroup
  | Large : Nat → HeapGroup
deriving DecidableEq, Repr

/-- `impl From<usize> for HeapGroup` (src/main.rs:26-36). -/
def HeapGroup.fromSize (value : Nat) : HeapGroup :=
  if value ≤ TINY_BLOCK_SIZE then .Tiny value
  else if value ≤ SMALL_BLOCK_SIZE then .Small value
  else .Large value

/-- `std::mem::discriminant`, used by `get_heap` to compare size classes. -/
def HeapGroup.discr : HeapGroup → Nat
  | .Tiny _ => 0
  | .Small _ => 1
  | .Large _ => 2

/-- `struct Block` (src/main.rs:81-88); null pointers are address 0. -/
structure Block : Type where
  next : Nat
  previous : Nat
  data_size : Nat
  free : Bool
deriving DecidableEq, Repr

/-- `Block::size() = mem::size_of::<Block>()` on x86-64. -/
def Block.sizeOf : Nat := 32

/-- `Block::new(size)` (src/main.rs:90-98). -/
def Block.new (size : Nat) : Block :=
  { next := 0, previous := 0, data_size := size, free := false }

/-- `struct Heap` (src/main.rs:48-57). -/
structure Heap : Type where
  group : HeapGroup
  next : Nat
  previous : Nat
  total_size : Nat
  free_size : Nat
  block_count : Nat
deriving DecidableEq, Repr

/-- `Heap::size() = mem::size_of::<Heap>()` on x86-64. -/
def Heap.sizeOf : Nat := 56

/-- `HeapGroup::alloc_size` (src/main.rs:39-45). -/
def HeapGroup.alloc_size : HeapGroup → Nat
  | .Tiny _ => TINY_HEAP_ALLOCATION_SIZE
  | .Small _ => SMALL_HEAP_ALLOCATION_SIZE
  | .Large v => v + Block.sizeOf + Heap.sizeOf

/-- `Heap::new(size)` (src/main.rs:63-74). -/
def Heap.new (size : Nat) : Heap :=
  let gp := HeapGroup.fromSize size
  let sz := gp.alloc_size
  { group := gp, next := 0, previous := 0, total_size := sz,
    free_size := sz - Heap.sizeOf, block_count := 0 }

/-- The allocator's machine state: the global head pointer (`HEAP_ANCHOR`),
the two header memories, the set of live mappings `(base, length)`, and the
page-provider oracle. -/
structure MachineState : Type where
  head : Nat
  heapMem : List (Nat × Heap)
  blockMem : List (Nat × Block)
  mapped : List (Nat × Nat)
  provider : List Nat
deriving DecidableEq, Repr

/-- First-match association-list lookup. -/
def lookupA {α : Type} : List (Nat × α) → Nat → Option α
  | [], _ => none
  | (k, v) :: rest, a => if k = a then some v else lookupA rest a

def readBlock (st : MachineState) (a : Nat) : Option Block :=
  lookupA st.blockMem a

def writeBlock (st : MachineState) (a : Nat) (b : Block) : MachineState :=
  { st with blockMem := (a, b) :: st.blockMem }

def readHeap (st : MachineState) (a : Nat) : Option Heap :=
  lookupA st.heapMem a

def writeHeap (st : MachineState) (a : Nat) (h : Heap) : MachineState :=
  { st with heapMem := (a, h) :: st.heapMem }

/-- Panics carry the machine state at the moment of the panic, so that
"no state is mutated" is expressible. -/
abbrev ExceptSt (α : Type) : Type := Except (String × MachineState) α

def unwrapMsg : String := "called unwrap on a None value: mem map failed"

/-- `mem_map` (src/mmap.rs:23-39): the next oracle base, or `none` for
`MAP_FAILED`. -/
def mem_map (st : MachineState) (len : Nat) : Option (Nat × MachineState) :=
  match st.provider with
  | [] => none
  | b :: rest =>
      some (b, { st with provider := rest, mapped := (b, len) :: st.mapped })

/-- `mem_unmap` (src/mmap.rs:41-48): removing a live mapping succeeds,
anything else is `munmap` failure. -/
def mem_unmap (st : MachineState) (base len : Nat) : ExceptSt MachineState :=
  if (base, len) ∈ st.mapped then
    .ok { st with mapped := st.mapped.filter (fun e => e.1 ≠ base) }
  else
    .error ("mem unmap failed", st)

/-- `align` (src/main.rs:164-166): `(from + to - 1) & !(to - 1)` on `usize`.
The bitwise complement of `to - 1` in 64 bits is `2 ^ 64 - to` for the
power-of-two `to = 8` used by `malloc`; the sum is reduced mod `2 ^ 64` as in
release-mode Rust. -/
def align (toq fromv : Nat) : Nat :=
  ((fromv + toq - 1) % 2 ^ 64) &&& (2 ^ 64 - toq)

/-- `create_heap` (src/main.rs:145-152); `mem_map(..).unwrap()` panics when
the provider fails. -/
def create_heap (size : Nat) (st : MachineState) : ExceptSt (Nat × MachineState) :=
  let header := Heap.new size
  match mem_map st header.total_size with
  | none => .error (unwrapMsg, st)
  | some (p, st1) => .ok (p, writeHeap st1 p header)

/-- `get_last_block` (src/main.rs:154-162), fuelled. -/
def get_last_block (st : MachineState) : Nat → Nat → Except String Nat
  | _, 0 => .error "fuel"
  | a, f + 1 =>
      match readBlock st a with
      | none => .error "invalid block read"
      | some b => if b.next = 0 then .ok a else get_last_block st b.next f

/-- `get_free_block` (src/main.rs:168-184): first block that is free with
`data_size >= size`, walking from the arena body. -/
def get_free_block_loop (st : MachineState) (size : Nat) : Nat → Nat → Except String (Option Nat)
  | _, 0 => .error "fuel"
  | a, f + 1 =>
      match readBlock st a with
      | none => .error "invalid block read"
      | some b =>
          if b.free ∧ size ≤ b.data_size then .ok (some a)
          else if b.next = 0 then .ok none
          else get_free_block_loop st size b.next f

def get_free_block (size heap : Nat) (st : MachineState) (fuel : Nat) : Except String (Option Nat) :=
  get_free_block_loop st size (heap + Heap.sizeOf) fuel

/-- The walk of `get_heap` (src/main.rs:193-205): first arena with a matching
discriminant and `free_size >= s + Block::size()`.  It only reads. -/
def get_heap_loop (st : MachineState) (gp : HeapGroup) (s : Nat) : Nat → Nat → Except String (Option Nat)
  | _, 0 => .error "fuel"
  | cur, f + 1 =>
      match readHeap st cur with
      | none => .error "invalid heap read"
      | some h =>
          if h.group.discr = gp.discr ∧ s + Block.sizeOf ≤ h.free_size then .ok (some cur)
          else if h.next = 0 then .ok none
          else get_heap_loop st gp s h.next f

/-- `get_heap` (src/main.rs:186-206): if the anchor is null it first creates a
heap and installs it as the head, then walks the arena list. -/
def get_heap (size : Nat) (st : MachineState) (fuel : Nat) : ExceptSt (Option Nat × MachineState) :=
  if st.head = 0 then
    match create_heap size st with
    | .error e => .error e
    | .ok (p, st1) =>
        match get_heap_loop { st1 with head := p } (HeapGroup.fromSize size) size p fuel with
        | .error m => .error (m, { st1 with head := p })
        | .ok r => .ok (r, { st1 with head := p })
  else
    match get_heap_loop st (HeapGroup.fromSize size) size st.head fuel with
    | .error m => .error (m, st)
    | .ok r => .ok (r, st)

/-- Block placement inside the chosen arena: the tail of `malloc`
(src/main.rs:229-271) after `suitable_heap` has been determined.  `size` is
already aligned. -/
def malloc_in_heap (size h : Nat) (st : MachineState) (fuel : Nat) : ExceptSt (Nat × MachineState) :=
  match readHeap st h with
  | none => .error ("invalid heap read", st)
  | some hp =>
      if hp.block_count = 0 then
        let last_block := h + Heap.sizeOf
        let st' := writeHeap st h
          { hp with block_count := hp.block_count + 1,
                    free_size := hp.free_size - (size + Block.sizeOf) }
        .ok (last_block + Block.sizeOf, writeBlock st' last_block (Block.new size))
      else
        match get_free_block size h st fuel with
        | .error m => .error (m, st)
        | .ok (some fb) =>
            match readBlock st fb with
            | none => .error ("invalid block read", st)
            | some b =>
                if b.data_size = size then
                  -- exact fit: the source returns the header address
                  -- and mutates nothing (src/main.rs:240-241)
                  .ok (fb, st)
                else
                  let block2 := fb + Block.sizeOf + size
                  let st1 := writeBlock st block2
                    { next := 0, previous := fb,
                      data_size := b.data_size - Block.sizeOf - size, free := true }
                  let st2 := writeBlock st1 fb
                    { b with data_size := size, free := false, next := block2 }
                  match readHeap st2 h with
                  | none => .error ("invalid heap read", st2)
                  | some hp2 =>
                      .ok (fb + Block.sizeOf,
                           writeHeap st2 h { hp2 with block_count := hp2.block_count + 1 })
        | .ok none =>
            match get_last_block st (h + Heap.sizeOf) fuel with
            | .error m => .error (m, st)
            | .ok last =>
                match readBlock st last with
                | none => .error ("invalid block read", st)
                | some lb =>
                    let new_block := last + Block.sizeOf + lb.data_size
                    let st1 := writeBlock st last { lb with next := new_block }
                    match readHeap st1 h with
                    | none => .error ("invalid heap read", st1)
                    | some hp2 =>
                        let st2 := writeHeap st1 h
                          { hp2 with block_count := hp2.block_count + 1,
                                     free_size := hp2.free_size - (size + Block.sizeOf) }
                        .ok (new_block + Block.sizeOf,
                             writeBlock st2 new_block
                               { Block.new size with previous := last })

/-- `malloc` (src/main.rs:208-272).  The returned address is the value of the
source's returned `*const c_void`.  On the large path the source writes only
`data_size` into the fresh header; the remaining fields are uninitialised and
never read, modelled here as zeros. -/
def malloc (size0 : Nat) (st0 : MachineState) (fuel : Nat) : ExceptSt (Nat × MachineState) :=
  let size := align 8 size0
  if SMALL_HEAP_ALLOCATION_SIZE < size then
    match mem_map st0 (size + Block.sizeOf) with
    | none => .error (unwrapMsg, st0)
    | some (p, st1) =>
        .ok (p + Block.sizeOf,
             writeBlock st1 p { next := 0, previous := 0, data_size := size, free := false })
  else
    match get_heap size st0 fuel with
    | .error e => .error e
    | .ok (some h, st1) => malloc_in_heap size h st1 fuel
    | .ok (none, st1) =>
        match create_heap size st1 with
        | .error e => .error e
        | .ok (p, st2) =>
            match readHeap st2 st2.head with
            | none => .error ("invalid heap read", st2)
            | some oldHead =>
                let st3 := writeHeap st2 p { Heap.new size with next := st2.head }
                let st4 := writeHeap st3 st3.head { oldHead with previous := p }
                malloc_in_heap size p { st4 with head := p } fuel

/-- Inner loop of `parent_heap` (src/main.rs:293-300): walk one arena's blocks
looking for a block whose payload address equals `p`. -/
def parent_heap_blocks (st : MachineState) (p heap : Nat) : Nat → Nat → Except String Bool
  | _, 0 => .error "fuel"
  | cur, f + 1 =>
      match readHeap st heap with
      | none => .error "invalid heap read"
      | some h =>
          if 0 < h.block_count ∧ cur ≠ 0 then
            if cur + Block.sizeOf = p then .ok true
            else
              match readBlock st cur with
              | none => .error "invalid block read"
              | some b => parent_heap_blocks st p heap b.next f
          else .ok false

/-- `parent_heap` (src/main.rs:290-304): the arena owning payload address `p`,
if any.  Pure reader. -/
def parent_heap (st : MachineState) (p : Nat) : Nat → Nat → Except String (Option Nat)
  | _, 0 => .error "fuel"
  | cur, f + 1 =>
      if cur = 0 then .ok none
      else
        match parent_heap_blocks st p cur (cur + Heap.sizeOf) (f + 1) with
        | .error m => .error m
        | .ok true => .ok (some cur)
        | .ok false =>
            match readHeap st cur with
            | none => .error "invalid heap read"
            | some h => parent_heap st p h.next f

/-- Decrement of `(*heap).block_count` shared by both merges. -/
def dec_block_count (heap : Nat) (st : MachineState) : ExceptSt MachineState :=
  match readHeap st heap with
  | none => .error ("invalid heap read", st)
  | some hh => .ok (writeHeap st heap { hh with block_count := hh.block_count - 1 })

/-- `merge_right` (src/main.rs:306-320). -/
def merge_right (block heap : Nat) (st : MachineState) : ExceptSt MachineState :=
  match readBlock st block with
  | none => .error ("invalid block read", st)
  | some bb =>
      if bb.next ≠ 0 then
        match readBlock st bb.next with
        | none => .error ("invalid block read", st)
        | some nb =>
            if nb.free then
              let st1 := writeBlock st block
                { bb with data_size := bb.data_size + nb.data_size + Block.sizeOf,
                          next := nb.next }
              if nb.next ≠ 0 then
                match readBlock st1 nb.next with
                | none => .error ("invalid block read", st1)
                | some xb => dec_block_count heap (writeBlock st1 nb.next { xb with previous := block })
              else dec_block_count heap st1
            else .ok st
      else .ok st

/-- Left-coalescing half of `merge_left` (src/main.rs:324-338). -/
def merge_left_merge (block heap : Nat) (st : MachineState) : ExceptSt MachineState :=
  match readBlock st block with
  | none => .error ("invalid block read", st)
  | some bb =>
      if bb.previous ≠ 0 then
        match readBlock st bb.previous with
        | none => .error ("invalid block read", st)
        | some pb =>
            if pb.free then
              let st1 := writeBlock st bb.previous
                { pb with next := bb.next,
                          data_size := pb.data_size + bb.data_size + Block.sizeOf }
              if bb.next ≠ 0 then
                match readBlock st1 bb.next with
                | none => .error ("invalid block read", st1)
                | some xb =>
                    dec_block_count heap (writeBlock st1 bb.next { xb with previous := bb.previous })
              else dec_block_count heap st1
            else .ok st
      else .ok st

/-- Final step of arena reclamation (src/main.rs:352-354): unmap the arena
unless it is the arena the global head points to. -/
def merge_left_unmap (hh : Heap) (st : MachineState) (heap : Nat) : ExceptSt MachineState :=
  if heap ≠ st.head then mem_unmap st heap hh.total_size else .ok st

/-- Second unlink write of arena reclamation (src/main.rs:348-350):
`(*heap.next).previous = heap.previous` when `heap.next` is non-null. -/
def merge_left_unlink_next (hh : Heap) (st : MachineState) (heap : Nat) : ExceptSt MachineState :=
  if hh.next ≠ 0 then
    match readHeap st hh.next with
    | none => .error ("invalid heap read", st)
    | some nh =>
        merge_left_unmap hh (writeHeap st hh.next { nh with previous := hh.previous }) heap
  else merge_left_unmap hh st heap

/-- Arena-reclamation half of `merge_left` (src/main.rs:339-356): when the
arena holds a single free block, bypass it in the arena list and unmap it —
but only when it is not the arena the global head points to. -/
def merge_left_reclaim (heap : Nat) (st : MachineState) : ExceptSt MachineState :=
  match readHeap st heap with
  | none => .error ("invalid heap read", st)
  | some hh =>
      if hh.block_count = 1 then
        match readBlock st (heap + Heap.sizeOf) with
        | none => .error ("invalid block read", st)
        | some fb =>
            if fb.free then
              if hh.previous ≠ 0 then
                match readHeap st hh.previous with
                | none => .error ("invalid heap read", st)
                | some ph =>
                    merge_left_unlink_next hh (writeHeap st hh.previous { ph with next := hh.next }) heap
              else merge_left_unlink_next hh st heap
            else .ok st
      else .ok st

/-- `merge_left` (src/main.rs:322-358) = coalesce left, then try to reclaim
the arena. -/
def merge_left (block heap : Nat) (st : MachineState) : ExceptSt MachineState :=
  match merge_left_merge block heap st with
  | .error e => .error e
  | .ok st1 => merge_left_reclaim heap st1

/-- `free` (src/main.rs:360-387). -/
def free (p : Nat) (st : MachineState) (fuel : Nat) : ExceptSt MachineState :=
  match parent_heap st p st.head fuel with
  | .error m => .error (m, st)
  | .ok none =>
      let bp := p - Block.sizeOf
      match readBlock st bp with
      | none => .error ("invalid block read", st)
      | some b =>
          if SMALL_HEAP_ALLOCATION_SIZE < b.data_size then
            mem_unmap st bp (b.data_size + Block.sizeOf)
          else .error ("invalid pointer", st)
  | .ok (some h) =>
      let bp := p - Block.sizeOf
      match readBlock st bp with
      | none => .error ("invalid block read", st)
      | some b =>
          if b.free then .error ("double free detected", st)
          else
            let st1 := writeBlock st bp { b with free := true }
            match readHeap st1 h with
            | none => .error ("invalid heap read", st1)
            | some hh =>
                let st2 := writeHeap st1 h
                  { hh with free_size := hh.free_size + (b.data_size + Block.sizeOf) }
                match merge_right bp h st2 with
                | .error e => .error e
                | .ok st3 => merge_left bp h st3

/-- The initial allocator state with a given page-provider oracle. -/
def initState (prov : List Nat) : MachineState :=
  { head := 0, heapMem := [], blockMem := [], mapped := [], provider := prov }

/-! ### Observation functions

These evaluate the spec's vocabulary (block list of an arena, adjacency,
accounting sums) on a machine state.  They are measurement devices over the
embedded state, not translations of source functions. -/

/-- The addresses of the blocks reached from `a` by following `next` links,
as `print_heap`/`parent_heap` walk them; fuelled. -/
def chase (st : MachineState) : Nat → Nat → Except String (List Nat)
  | _, 0 => .error "fuel"
  | a, f + 1 =>
      if a = 0 then .ok []
      else
        match readBlock st a with
        | none => .error "invalid block read"
        | some b =>
            match chase st b.next f with
            | .error m => .error m
            | .ok l => .ok (a :: l)

/-- `chainSeg st a l e`: following `next` links from `a` visits exactly the
(nonzero) addresses in `l` and then exits to address `e` (0 = end of list). -/
def chainSeg (st : MachineState) : Nat → List Nat → Nat → Prop
  | a, [], e => a = e
  | a, x :: r, e => a = x ∧ x ≠ 0 ∧ ∃ b, readBlock st x = some b ∧ chainSeg st b.next r e

/-- Whether the block stored at `a` is free. -/
def isFree (st : MachineState) (a : Nat) : Bool :=
  match readBlock st a with
  | some b => b.free
  | none => false

/-- Spec invariant 3: no two list-adjacent blocks are both free. -/
def noAdjFree (st : MachineState) : List Nat → Bool
  | a :: b :: r => (!(isFree st a && isFree st b)) && noAdjFree st (b :: r)
  | _ => true

/-- Spec invariant 2 (half of it): each block's `previous` pointer names its
list predecessor, `e` being the expected predecessor of the first element. -/
def prevOk (st : MachineState) : Nat → List Nat → Bool
  | _, [] => true
  | e, a :: r =>
      (match readBlock st a with
       | some b => decide (b.previous = e)
       | none => false) && prevOk st a r

/-- Spec invariant 4, left summand: `data_size + sizeof(BlockHeader)` summed
over the free blocks of a block list. -/
def freeBytes (st : MachineState) : List Nat → Nat
  | [] => 0
  | a :: r =>
      (match readBlock st a with
       | some b => if b.free then b.data_size + Block.sizeOf else 0
       | none => 0) + freeBytes st r

/-- The first address after the last block of a block list (the arena body
start for an empty list): start of the unused tail region. -/
def listEnd (st : MachineState) (heap : Nat) : List Nat → Nat
  | [] => heap + Heap.sizeOf
  | [a] =>
      match readBlock st a with
      | some b => a + Block.sizeOf + b.data_size
      | none => a
  | _ :: r => listEnd st heap r

/-! ### Concrete executions

Driver helpers and the literal operation sequences from the spec's
end-to-end scenarios, run from fresh states with concrete page bases. -/

def stepMalloc (n : Nat) (st : MachineState) : MachineState :=
  match malloc n st 100 with
  | .ok (_, s) => s
  | .error (_, s) => s

def stepFree (p : Nat) (st : MachineState) : MachineState :=
  match free p st 100 with
  | .ok s => s
  | .error (_, s) => s

/-- Split-then-refit, before the refit: `p1=allocate(64); p2=allocate(64);
release(p1)` with the tiny arena mapped at 4096 (p1 = 4184, p2 = 4280). -/
def scnSplitPre : MachineState :=
  stepFree 4184 (stepMalloc 64 (stepMalloc 64 (initState [4096])))

/-- Split-then-refit after `p3=allocate(16)` (which splits p1's old block). -/
def scnSplit : MachineState :=
  stepMalloc 16 scnSplitPre

/-- Exact fit: `p1=allocate(16); release(p1)`, so the sole block (header at
4152) is free with `data_size = 16`. -/
def scnExactPre : MachineState :=
  stepFree 4184 (stepMalloc 16 (initState [4096]))

/-- Head-arena reclamation attempt: `p1=allocate(16)` (tiny arena at 4096),
`p2=allocate(200)` (small arena at 1048576, becoming the head),
`release(p2)` (leaves the small arena with one free block). -/
def scnHeadPre : MachineState :=
  stepMalloc 200 (stepMalloc 16 (initState [4096, 1048576]))

def scnHeadReclaim : MachineState :=
  stepFree 1048664 scnHeadPre

/-- Three 64-byte blocks with the middle one released:
`p1=allocate(64); p2=allocate(64); p3=allocate(64); release(p2)`
(blocks at 4152 used, 4248 free, 4344 used). -/
def scnThree : MachineState :=
  stepFree 4280 (stepMalloc 64 (stepMalloc 64 (stepMalloc 64 (initState [4096]))))

/-- One live allocation: `p=allocate(10)` (tiny arena at 4096, p = 4184). -/
def scnOne : MachineState :=
  stepMalloc 10 (initState [4096])

/-- Double free: `p=allocate(10); release(p)`; the block at 4152 is free. -/
def scnDouble : MachineState :=
  stepFree 4184 scnOne

/-! ### Chain lemmas -/

theorem chase_ok_chainSeg {st : MachineState} :
    ∀ {a f : Nat} {l : List Nat}, chase st a f = .ok l → chainSeg st a l 0 := by
  intro a f
  induction f generalizing a with
  | zero => intro l hk; exact Except.noConfusion hk
  | succ f ih =>
      intro l hk
      unfold chase at hk
      split at hk
      · rename_i ha
        injection hk with hk
        subst hk
        exact ha
      · rename_i ha
        split at hk
        · exact Except.noConfusion hk
        · rename_i b hb
          split at hk
          · exact Except.noConfusion hk
          · rename_i t ht
            injection hk with hk
            subst hk
            exact ⟨rfl, ha, b, hb, ih ht⟩

theorem chainSeg_chase {st : MachineState} :
    ∀ {l : List Nat} {a : Nat}, chainSeg st a l 0 → chase st a (l.length + 1) = .ok l := by
  intro l
  induction l with
  | nil =>
      intro a h
      unfold chainSeg at h
      subst h
      rfl
  | cons x r ih =>
      intro a h
      obtain ⟨hax, hx, b, hb, ht⟩ := h
      subst hax
      unfold chase
      simp only [if_neg hx, hb, List.length_cons]
      rw [ih ht]

theorem chainSeg_split {st : MachineState} :
    ∀ {l₁ : List Nat} {a e : Nat} {l₂ : List Nat}, chainSeg st a (l₁ ++ l₂) e →
      ∃ m, chainSeg st a l₁ m ∧ chainSeg st m l₂ e := by
  intro l₁
  induction l₁ with
  | nil => intro a e l₂ h; exact ⟨a, rfl, h⟩
  | cons x r ih =>
      intro a e l₂ h
      obtain ⟨hax, hx, b, hb, ht⟩ := h
      obtain ⟨m, h1, h2⟩ := ih ht
      exact ⟨m, ⟨hax, hx, b, hb, h1⟩, h2⟩

theorem chainSeg_join {st : MachineState} :
    ∀ {l₁ : List Nat} {a m e : Nat} {l₂ : List Nat},
      chainSeg st a l₁ m → chainSeg st m l₂ e → chainSeg st a (l₁ ++ l₂) e := by
  intro l₁
  induction l₁ with
  | nil =>
      intro a m e l₂ h1 h2
      unfold chainSeg at h1
      subst h1
      exact h2
  | cons x r ih =>
      intro a m e l₂ h1 h2
      obtain ⟨hax, hx, b, hb, ht⟩ := h1
      exact ⟨hax, hx, b, hb, ih ht h2⟩

theorem chainSeg_congr {st st' : MachineState} :
    ∀ {l : List Nat} {a e : Nat}, chainSeg st a l e →
      (∀ x ∈ l, ∀ b : Block, readBlock st x = some b →
        ∃ b' : Block, readBlock st' x = some b' ∧ b'.next = b.next) →
      chainSeg st' a l e := by
  intro l
  induction l with
  | nil => intro a e h _; exact h
  | cons x r ih =>
      intro a e h hagree
      obtain ⟨hax, hx, b, hb, ht⟩ := h
      obtain ⟨b', hb', hn⟩ := hagree x (List.mem_cons_self x r) b hb
      refine ⟨hax, hx, b', hb', ?_⟩
      rw [hn]
      exact ih ht (fun y hy c hc => hagree y (List.mem_cons_of_mem x hy) c hc)

theorem chainSeg_read {st : MachineState} :
    ∀ {l : List Nat} {a e : Nat}, chainSeg st a l e →
      ∀ x ∈ l, ∃ b : Block, readBlock st x = some b := by
  intro l
  induction l with
  | nil => intro a e _ x hx; exact absurd hx (List.not_mem_nil x)
  | cons y r ih =>
      intro a e h x hx
      obtain ⟨hay, hy, b, hb, ht⟩ := h
      rcases List.mem_cons.mp hx with h1 | h2
      · subst h1; exact ⟨b, hb⟩
      · exact ih ht x h2

theorem chainSeg_ne_zero {st : MachineState} :
    ∀ {l : List Nat} {a e : Nat}, chainSeg st a l e → ∀ x ∈ l, x ≠ 0 := by
  intro l
  induction l with
  | nil => intro a e _ x hx; exact absurd hx (List.not_mem_nil x)
  | cons y r ih =>
      intro a e h x hx
      obtain ⟨hay, hy, b, hb, ht⟩ := h
      rcases List.mem_cons.mp hx with h1 | h2
      · subst h1; exact hy
      · exact ih ht x h2

/-- The junction condition when concatenating block lists for `noAdjFree`. -/
def joinOk (st : MachineState) : Option Nat → Option Nat → Bool
  | some x, some y => !(isFree st x && isFree st y)
  | _, _ => true

theorem noAdjFree_cons_cons (st : MachineState) (x y : Nat) (t : List Nat) :
    noAdjFree st (x :: y :: t) = ((!(isFree st x && isFree st y)) && noAdjFree st (y :: t)) :=
  rfl

theorem noAdjFree_append (st : MachineState) :
    ∀ (l₁ l₂ : List Nat),
      noAdjFree st (l₁ ++ l₂) =
        (noAdjFree st l₁ && noAdjFree st l₂ && joinOk st l₁.getLast? l₂.head?) := by
  intro l₁
  induction l₁ with
  | nil => intro l₂; simp [noAdjFree, joinOk]
  | cons x r ih =>
      intro l₂
      cases r with
      | nil =>
          cases l₂ with
          | nil => simp [noAdjFree, joinOk]
          | cons y t =>
              show noAdjFree st (x :: y :: t) = _
              rw [noAdjFree_cons_cons]
              show _ = (noAdjFree st [x] && noAdjFree st (y :: t) && joinOk st (some x) (some y))
              cases hxy : (isFree st x && isFree st y) <;>
                cases ht : noAdjFree st (y :: t) <;>
                  simp [noAdjFree, joinOk, hxy, ht]
      | cons z s =>
          show noAdjFree st (x :: z :: (s ++ l₂)) = _
          rw [noAdjFree_cons_cons]
          have hzs : z :: (s ++ l₂) = (z :: s) ++ l₂ := rfl
          rw [hzs, ih l₂]
          rw [List.getLast?_cons_cons, noAdjFree_cons_cons]
          cases hxz : (isFree st x && isFree st z) <;>
            cases h1 : noAdjFree st (z :: s) <;>
            cases h2 : noAdjFree st l₂ <;>
            cases h3 : joinOk st (z :: s).getLast? l₂.head? <;> simp

theorem noAdjFree_congr (st st' : MachineState) :
    ∀ {l : List Nat}, (∀ x ∈ l, isFree st' x = isFree st x) →
      noAdjFree st' l = noAdjFree st l := by
  intro l
  induction l with
  | nil => intro _; rfl
  | cons x r ih =>
      intro hagree
      cases r with
      | nil => rfl
      | cons y t =>
          rw [noAdjFree_cons_cons, noAdjFree_cons_cons,
            hagree x (List.mem_cons_self x (y :: t)),
            hagree y (List.mem_cons_of_mem x (List.mem_cons_self y t)),
            ih (fun z hz => hagree z (List.mem_cons_of_mem x hz))]

theorem prevOk_cons (st : MachineState) (e x : Nat) (r : List Nat) :
    prevOk st e (x :: r) =
      ((match readBlock st x with
        | some b => decide (b.previous = e)
        | none => false) && prevOk st x r) :=
  rfl

theorem prevOk_split (st : MachineState) :
    ∀ (l₁ : List Nat) (e : Nat) (l₂ : List Nat), prevOk st e (l₁ ++ l₂) = true →
      prevOk st e l₁ = true ∧ prevOk st (l₁.getLastD e) l₂ = true := by
  intro l₁
  induction l₁ with
  | nil => intro e l₂ h; exact ⟨rfl, h⟩
  | cons x r ih =>
      intro e l₂ h
      rw [List.cons_append, prevOk_cons, Bool.and_eq_true] at h
      obtain ⟨h1, h2⟩ := h
      obtain ⟨h3, h4⟩ := ih x l₂ h2
      constructor
      · rw [prevOk_cons, Bool.and_eq_true]
        exact ⟨h1, h3⟩
      · rw [List.getLastD_cons]
        exact h4

/-! ### Small frame lemmas about reads and writes -/

theorem readBlock_writeBlock_same (st : MachineState) (a : Nat) (b : Block) :
    readBlock (writeBlock st a b) a = some b := by
  simp [readBlock, writeBlock, lookupA]

theorem readBlock_writeBlock_ne (st : MachineState) {a x : Nat} (b : Block) (h : a ≠ x) :
    readBlock (writeBlock st a b) x = readBlock st x := by
  simp [readBlock, writeBlock, lookupA, h]

theorem readBlock_writeHeap (st : MachineState) (a : Nat) (hh : Heap) (x : Nat) :
    readBlock (writeHeap st a hh) x = readBlock st x := rfl

theorem readHeap_writeBlock (st : MachineState) (a : Nat) (b : Block) (x : Nat) :
    readHeap (writeBlock st a b) x = readHeap st x := rfl

theorem readHeap_writeHeap_same (st : MachineState) (a : Nat) (hh : Heap) :
    readHeap (writeHeap st a hh) a = some hh := by
  simp [readHeap, writeHeap, lookupA]

theorem readHeap_writeHeap_ne (st : MachineState) {a x : Nat} (hh : Heap) (h : a ≠ x) :
    readHeap (writeHeap st a hh) x = readHeap st x := by
  simp [readHeap, writeHeap, lookupA, h]

/-! ### Symbolic execution of the split path -/

theorem malloc_in_heap_split {sz h fuel fb : Nat} {st : MachineState} {hh : Heap} {b : Block}
    (hhh : readHeap st h = some hh)
    (hbc : hh.block_count ≠ 0)
    (hfb : get_free_block sz h st fuel = .ok (some fb))
    (hb : readBlock st fb = some b)
    (hne : b.data_size ≠ sz) :
    malloc_in_heap sz h st fuel =
      .ok (fb + Block.sizeOf,
        writeHeap
          (writeBlock
            (writeBlock st (fb + Block.sizeOf + sz)
              { next := 0, previous := fb,
                data_size := b.data_size - Block.sizeOf - sz, free := true })
            fb
            { b with data_size := sz, free := false, next := fb + Block.sizeOf + sz })
          h { hh with block_count := hh.block_count + 1 }) := by
  unfold malloc_in_heap
  rw [hhh]
  simp only [if_neg hbc, hfb, hb, if_neg hne]
  simp only [readHeap_writeBlock]
  rw [hhh]

theorem malloc_split {n fuel h fb : Nat} {st : MachineState} {hh : Heap} {b : Block}
    (hsz : align 8 n ≤ SMALL_HEAP_ALLOCATION_SIZE)
    (hg : get_heap (align 8 n) st fuel = .ok (some h, st))
    (hhh : readHeap st h = some hh)
    (hbc : hh.block_count ≠ 0)
    (hfb : get_free_block (align 8 n) h st fuel = .ok (some fb))
    (hb : readBlock st fb = some b)
    (hne : b.data_size ≠ align 8 n) :
    malloc n st fuel =
      .ok (fb + Block.sizeOf,
        writeHeap
          (writeBlock
            (writeBlock st (fb + Block.sizeOf + align 8 n)
              { next := 0, previous := fb,
                data_size := b.data_size - Block.sizeOf - align 8 n, free := true })
            fb
            { b with data_size := align 8 n, free := false,
                     next := fb + Block.sizeOf + align 8 n })
          h { hh with block_count := hh.block_count + 1 }) := by
  unfold malloc
  simp only [if_neg (not_lt.mpr hsz), hg]
  exact malloc_in_heap_split hhh hbc hfb hb hne

/-! ### Symbolic execution of the release path -/

theorem readBlock_write_isSome {st : MachineState} {x : Nat} (a : Nat) (b : Block)
    (h : (readBlock st x).isSome = true) :
    (readBlock (writeBlock st a b) x).isSome = true := by
  by_cases hax : a = x
  · subst hax; rw [readBlock_writeBlock_same]; rfl
  · rw [readBlock_writeBlock_ne _ _ hax]; exact h

theorem readHeap_write_isSome {st : MachineState} {x : Nat} (a : Nat) (hh : Heap)
    (h : (readHeap st x).isSome = true) :
    (readHeap (writeHeap st a hh) x).isSome = true := by
  by_cases hax : a = x
  · subst hax; rw [readHeap_writeHeap_same]; rfl
  · rw [readHeap_writeHeap_ne _ _ hax]; exact h

theorem free_exec {p h fuel : Nat} {st : MachineState} {bb : Block} {hh : Heap}
    (hph : parent_heap st p st.head fuel = .ok (some h))
    (hbb : readBlock st (p - Block.sizeOf) = some bb)
    (hbf : bb.free = false)
    (hhh : readHeap st h = some hh) :
    free p st fuel =
      (match merge_right (p - Block.sizeOf) h
          (writeHeap (writeBlock st (p - Block.sizeOf) { bb with free := true }) h
            { hh with free_size := hh.free_size + (bb.data_size + Block.sizeOf) }) with
       | .error e => .error e
       | .ok st3 => merge_left (p - Block.sizeOf) h st3) := by
  unfold free
  rw [hph]
  dsimp only
  rw [hbb]
  simp only [hbf, Bool.false_eq_true, if_false, readHeap_writeBlock]
  rw [hhh]

theorem merge_right_skip_null {b h : Nat} {st : MachineState} {bb : Block}
    (hb : readBlock st b = some bb) (hn : bb.next = 0) :
    merge_right b h st = .ok st := by
  unfold merge_right
  rw [hb]
  simp [hn]

theorem merge_right_skip_used {b h : Nat} {st : MachineState} {bb cb : Block}
    (hb : readBlock st b = some bb) (hn : bb.next ≠ 0)
    (hc : readBlock st bb.next = some cb) (hcf : cb.free = false) :
    merge_right b h st = .ok st := by
  unfold merge_right
  rw [hb]
  simp only [if_pos hn]
  rw [hc]
  simp [hcf]

theorem merge_right_merge_null {b h : Nat} {st : MachineState} {bb cb : Block} {hh2 : Heap}
    (hb : readBlock st b = some bb) (hn : bb.next ≠ 0)
    (hc : readBlock st bb.next = some cb) (hcf : cb.free = true) (hd : cb.next = 0)
    (hhh : readHeap st h = some hh2) :
    merge_right b h st =
      .ok (writeHeap
            (writeBlock st b
              { bb with data_size := bb.data_size + cb.data_size + Block.sizeOf,
                        next := cb.next })
            h { hh2 with block_count := hh2.block_count - 1 }) := by
  unfold merge_right
  rw [hb]
  simp only [if_pos hn]
  rw [hc]
  simp only [hcf, if_true, hd, ne_eq, not_true_eq_false, if_neg, ite_false,
    not_false_eq_true]
  unfold dec_block_count
  simp only [readHeap_writeBlock]
  rw [hhh]

theorem merge_right_merge_step {b h : Nat} {st : MachineState} {bb cb db : Block} {hh2 : Heap}
    (hb : readBlock st b = some bb) (hn : bb.next ≠ 0)
    (hc : readBlock st bb.next = some cb) (hcf : cb.free = true) (hd : cb.next ≠ 0)
    (hdb : readBlock st cb.next = some db) (hdne : b ≠ cb.next)
    (hhh : readHeap st h = some hh2) :
    merge_right b h st =
      .ok (writeHeap
            (writeBlock
              (writeBlock st b
                { bb with data_size := bb.data_size + cb.data_size + Block.sizeOf,
                          next := cb.next })
              cb.next { db with previous := b })
            h { hh2 with block_count := hh2.block_count - 1 }) := by
  unfold merge_right
  rw [hb]
  simp only [if_pos hn]
  rw [hc]
  simp only [hcf, if_true, if_pos hd]
  rw [readBlock_writeBlock_ne _ _ hdne, hdb]
  unfold dec_block_count
  simp only [readHeap_writeBlock]
  rw [hhh]

theorem merge_left_merge_skip_first {b h : Nat} {st : MachineState} {bb : Block}
    (hb : readBlock st b = some bb) (hp : bb.previous = 0) :
    merge_left_merge b h st = .ok st := by
  unfold merge_left_merge
  rw [hb]
  simp [hp]

theorem merge_left_merge_skip_used {b h : Nat} {st : MachineState} {bb ab : Block}
    (hb : readBlock st b = some bb) (hp : bb.previous ≠ 0)
    (ha : readBlock st bb.previous = some ab) (haf : ab.free = false) :
    merge_left_merge b h st = .ok st := by
  unfold merge_left_merge
  rw [hb]
  simp only [if_pos hp]
  rw [ha]
  simp [haf]

theorem merge_left_merge_null {b h : Nat} {st : MachineState} {bb ab : Block} {hh2 : Heap}
    (hb : readBlock st b = some bb) (hp : bb.previous ≠ 0)
    (ha : readBlock st bb.previous = some ab) (haf : ab.free = true)
    (hn : bb.next = 0) (hhh : readHeap st h = some hh2) :
    merge_left_merge b h st =
      .ok (writeHeap
            (writeBlock st bb.previous
              { ab with next := bb.next,
                        data_size := ab.data_size + bb.data_size + Block.sizeOf })
            h { hh2 with block_count := hh2.block_count - 1 }) := by
  unfold merge_left_merge
  rw [hb]
  simp only [if_pos hp]
  rw [ha]
  simp only [haf, if_true, hn, ne_eq, not_true_eq_false, if_neg, ite_false,
    not_false_eq_true]
  unfold dec_block_count
  simp only [readHeap_writeBlock]
  rw [hhh]

theorem merge_left_merge_step {b h : Nat} {st : MachineState} {bb ab eb : Block} {hh2 : Heap}
    (hb : readBlock st b = some bb) (hp : bb.previous ≠ 0)
    (ha : readBlock st bb.previous = some ab) (haf : ab.free = true)
    (hn : bb.next ≠ 0) (hene : bb.previous ≠ bb.next)
    (heb : readBlock st bb.next = some eb)
    (hhh : readHeap st h = some hh2) :
    merge_left_merge b h st =
      .ok (writeHeap
            (writeBlock
              (writeBlock st bb.previous
                { ab with next := bb.next,
                          data_size := ab.data_size + bb.data_size + Block.sizeOf })
              bb.next { eb with previous := bb.previous })
            h { hh2 with block_count := hh2.block_count - 1 }) := by
  unfold merge_left_merge
  rw [hb]
  simp only [if_pos hp]
  rw [ha]
  simp only [haf, if_true, if_pos hn]
  rw [readBlock_writeBlock_ne _ _ hene, heb]
  unfold dec_block_count
  simp only [readHeap_writeBlock]
  rw [hhh]

theorem merge_left_unmap_runs {heap : Nat} {st0 st1 : MachineState} {hh2 : Heap}
    (hb1 : st1.blockMem = st0.blockMem)
    (hh1 : st1.head = st0.head)
    (hm1 : st1.mapped = st0.mapped)
    (hM : heap ≠ st0.head → (heap, hh2.total_size) ∈ st0.mapped) :
    ∃ st', merge_left_unmap hh2 st1 heap = .ok st' ∧ st'.blockMem = st0.blockMem := by
  unfold merge_left_unmap
  by_cases h4 : heap ≠ st1.head
  · simp only [if_pos h4]
    unfold mem_unmap
    rw [if_pos ?hmem]
    case hmem =>
      rw [hm1]
      exact hM (hh1 ▸ h4)
    exact ⟨_, rfl, hb1⟩
  · simp only [if_neg h4]
    exact ⟨st1, rfl, hb1⟩

theorem merge_left_unlink_next_runs {heap : Nat} {st0 st1 : MachineState} {hh2 : Heap}
    (hb1 : st1.blockMem = st0.blockMem)
    (hh1 : st1.head = st0.head)
    (hm1 : st1.mapped = st0.mapped)
    (hN : hh2.next ≠ 0 → (readHeap st1 hh2.next).isSome = true)
    (hM : heap ≠ st0.head → (heap, hh2.total_size) ∈ st0.mapped) :
    ∃ st', merge_left_unlink_next hh2 st1 heap = .ok st' ∧ st'.blockMem = st0.blockMem := by
  unfold merge_left_unlink_next
  by_cases h3 : hh2.next ≠ 0
  · simp only [if_pos h3]
    obtain ⟨nh, hnh⟩ := Option.isSome_iff_exists.mp (hN h3)
    rw [hnh]
    exact merge_left_unmap_runs hb1 hh1 hm1 hM
  · simp only [if_neg h3]
    exact merge_left_unmap_runs hb1 hh1 hm1 hM

theorem merge_left_reclaim_runs {heap : Nat} {st : MachineState} {hh2 : Heap}
    (hR : readHeap st heap = some hh2)
    (hB : hh2.block_count = 1 → (readBlock st (heap + Heap.sizeOf)).isSome = true)
    (hP : hh2.previous ≠ 0 → (readHeap st hh2.previous).isSome = true)
    (hN : hh2.next ≠ 0 → (readHeap st hh2.next).isSome = true)
    (hM : heap ≠ st.head → (heap, hh2.total_size) ∈ st.mapped) :
    ∃ st', merge_left_reclaim heap st = .ok st' ∧ st'.blockMem = st.blockMem := by
  unfold merge_left_reclaim
  rw [hR]
  by_cases h1 : hh2.block_count = 1
  · simp only [if_pos h1]
    obtain ⟨fb, hfb⟩ := Option.isSome_iff_exists.mp (hB h1)
    rw [hfb]
    by_cases h2 : fb.free
    · simp only [h2, if_true]
      by_cases h3 : hh2.previous ≠ 0
      · simp only [if_pos h3]
        obtain ⟨ph, hph⟩ := Option.isSome_iff_exists.mp (hP h3)
        rw [hph]
        refine merge_left_unlink_next_runs rfl rfl rfl ?_ hM
        intro h4
        exact readHeap_write_isSome _ _ (hN h4)
      · simp only [if_neg h3]
        exact merge_left_unlink_next_runs rfl rfl rfl hN hM
    · simp only [h2, if_false, Bool.false_eq_true]
      exact ⟨st, rfl, rfl⟩
  · simp only [if_neg h1]
    exact ⟨st, rfl, rfl⟩

theorem noAdjFree_cc {st : MachineState} {x y : Nat} {t : List Nat} :
    noAdjFree st (x :: y :: t) = true ↔
      ((isFree st x = false ∨ isFree st y = false) ∧ noAdjFree st (y :: t) = true) := by
  rw [noAdjFree_cons_cons, Bool.and_eq_true]
  cases hx : isFree st x <;> cases hy : isFree st y <;> simp

theorem joinOk_none_right (st : MachineState) (o : Option Nat) : joinOk st o none = true := by
  cases o <;> rfl

theorem joinOk_none_left (st : MachineState) (o : Option Nat) : joinOk st none o = true := by
  cases o <;> rfl

theorem joinOk_some_some {st : MachineState} {x y : Nat}
    (h : isFree st x = false ∨ isFree st y = false) :
    joinOk st (some x) (some y) = true := by
  show (!(isFree st x && isFree st y)) = true
  rcases h with h | h <;> simp [h]

theorem readBlock_eq_of_blockMem_eq {st st' : MachineState}
    (h : st'.blockMem = st.blockMem) (x : Nat) : readBlock st' x = readBlock st x := by
  unfold readBlock
  rw [h]

theorem isFree_eq_of_blockMem_eq {st st' : MachineState}
    (h : st'.blockMem = st.blockMem) (x : Nat) : isFree st' x = isFree st x := by
  unfold isFree
  rw [readBlock_eq_of_blockMem_eq h]

/-! ### Claim theorems -/

/-- C1 (code bug, failing run): in the split-then-refit scenario the free
block at 4152 (`data_size = 64`, successor at 4248) is split by
`allocate(16)`.  The remainder is carved at 4200 = 4152 + 32 + 16 with
`data_size = 64 - 16 - 32 = 16` and `free = true` as the claim says, but its
`next` pointer is set to 0 (null) instead of the former successor 4248, and
4248's `previous` still names 4152, so the doubly-linked list is not
preserved: the block list now ends at the remainder and 4248 is dropped. -/
theorem split_remainder_unlinked_run :
    malloc 16 scnSplitPre 100 = .ok (4184, scnSplit) ∧
    readBlock scnSplitPre 4152 =
      some { next := 4248, previous := 0, data_size := 64, free := true } ∧
    readBlock scnSplit 4200 =
      some { next := 0, previous := 4152, data_size := 16, free := true } ∧
    readBlock scnSplit 4152 =
      some { next := 4200, previous := 0, data_size := 16, free := false } ∧
    readBlock scnSplit 4248 =
      some { next := 0, previous := 4152, data_size := 64, free := false } ∧
    chase scnSplit (4096 + Heap.sizeOf) 100 = .ok [4152, 4200] :=
  ⟨rfl, rfl, rfl, rfl, rfl, rfl⟩

/-- C2 (code bug, failing run): with the sole block at 4152 free with
`data_size = 16`, `allocate(16)` takes the exact-fit branch.  The source
returns the block header address 4152 — not the payload address
4152 + 32 = 4184 — leaves `free = true`, and mutates nothing. -/
theorem exact_fit_returns_header_run :
    malloc 16 scnExactPre 100 = .ok (4152, scnExactPre) ∧
    readBlock scnExactPre 4152 =
      some { next := 0, previous := 0, data_size := 16, free := true } ∧
    4152 + Block.sizeOf = 4184 :=
  ⟨rfl, rfl, rfl⟩

/-- C3 (code bug, failing run): after `release(p2)` the small arena at
1048576 — which is the global head and has another arena (4096) after it —
holds a single free block, yet it stays mapped, the global head still points
to it, and its `next` still names 4096: the code only bypasses neighbours
and never unmaps or unlinks the head arena. -/
theorem head_arena_not_reclaimed_run :
    free 1048664 scnHeadPre 100 = .ok scnHeadReclaim ∧
    scnHeadReclaim.head = 1048576 ∧
    (1048576, 131072) ∈ scnHeadReclaim.mapped ∧
    readHeap scnHeadReclaim 1048576 =
      some { group := .Small 200, next := 4096, previous := 0,
             total_size := 131072, free_size := 131016, block_count := 1 } ∧
    readBlock scnHeadReclaim (1048576 + Heap.sizeOf) =
      some { next := 0, previous := 0, data_size := 200, free := true } :=
  ⟨rfl, rfl, by decide, rfl, rfl⟩

/-- C4 (code bug, failing run): after the split in the split-then-refit
scenario the tiny arena reports `free_size = 16232` and `block_count = 3`,
but its block list is `[4152, 4200]` of length 2, and the free blocks plus
the unused tail account for 48 + (4096 + 16384 - 4248) = 16280 bytes: the
split path updates neither `free_size` nor the list consistently, so the
accounting equation fails. -/
theorem accounting_broken_by_split_run :
    readHeap scnSplit 4096 =
      some { group := .Tiny 64, next := 0, previous := 0,
             total_size := 16384, free_size := 16232, block_count := 3 } ∧
    chase scnSplit (4096 + Heap.sizeOf) 100 = .ok [4152, 4200] ∧
    freeBytes scnSplit [4152, 4200] +
      (4096 + 16384 - listEnd scnSplit 4096 [4152, 4200]) = 16280 ∧
    (16232 : Nat) ≠ 16280 ∧
    ([4152, 4200] : List Nat).length = 2 ∧
    (3 : Nat) ≠ 2 :=
  ⟨rfl, rfl, rfl, by decide, rfl, by decide⟩

/-- C6 (counterexample): when the page provider cannot satisfy the mapping
request, `allocate` does not return a null address — it panics on `unwrap`
(src/main.rs:147, 212), here from the empty-provider initial state. -/
theorem oom_panics_not_null :
    malloc 16 (initState []) 100 = .error (unwrapMsg, initState []) :=
  rfl

/-- C6 (amended): whenever `allocate` must obtain a fresh mapping — a large
request (src/main.rs:212), an allocator with no arena yet (`create_heap`
inside `get_heap`, src/main.rs:147,188), or a request whose class matches no
existing arena so a new one must be created (src/main.rs:220) — and the page
provider cannot satisfy it, `malloc` does not return null: it panics via
`unwrap`, and the allocator state at the panic is exactly the entry state —
nothing has been mutated. -/
theorem oom_panic_leaves_state_unchanged (st : MachineState) (n fuel : Nat)
    (hprov : st.provider = []) :
    (SMALL_HEAP_ALLOCATION_SIZE < align 8 n →
        malloc n st fuel = .error (unwrapMsg, st)) ∧
    (st.head = 0 → malloc n st fuel = .error (unwrapMsg, st)) ∧
    (∀ st1, get_heap (align 8 n) st fuel = .ok (none, st1) →
        st1 = st ∧ malloc n st fuel = .error (unwrapMsg, st)) := by
  have hlarge : SMALL_HEAP_ALLOCATION_SIZE < align 8 n →
      malloc n st fuel = .error (unwrapMsg, st) := by
    intro hl
    unfold malloc
    simp only [hl, if_pos, mem_map, hprov]
  refine ⟨hlarge, ?_, ?_⟩
  · intro hhead
    by_cases hl : SMALL_HEAP_ALLOCATION_SIZE < align 8 n
    · exact hlarge hl
    · unfold malloc
      simp only [hl, if_neg, not_false_iff, get_heap, hhead, if_pos, create_heap, mem_map, hprov]
  · intro st1 hg
    have hst : st1 = st := by
      by_cases hhead : st.head = 0
      · simp only [get_heap, hhead, if_pos, create_heap, mem_map, hprov] at hg
        exact Except.noConfusion hg
      · unfold get_heap at hg
        rw [if_neg hhead] at hg
        cases hloop : get_heap_loop st (HeapGroup.fromSize (align 8 n)) (align 8 n) st.head fuel with
        | error m => rw [hloop] at hg; exact Except.noConfusion hg
        | ok r =>
            rw [hloop] at hg
            injection hg with hg
            exact (congrArg Prod.snd hg).symm
    refine ⟨hst, ?_⟩
    by_cases hl : SMALL_HEAP_ALLOCATION_SIZE < align 8 n
    · exact hlarge hl
    · unfold malloc
      simp only [hl, if_neg, not_false_iff]
      rw [hg, hst]
      simp only [create_heap, mem_map, hprov]

/-- C6 witness: after one tiny allocation has exhausted the provider, a small
request matches no existing arena; the fresh-arena mapping fails and `malloc`
panics with the entry state intact. -/
theorem oom_panic_leaves_state_unchanged_witness :
    malloc 200 scnOne 100 = .error (unwrapMsg, scnOne) :=
  ((oom_panic_leaves_state_unchanged scnOne 200 100 rfl).2.2 scnOne rfl).2

/-- C7: a release whose address is owned by an arena (`parent_heap` finds a
heap) and whose block is already free panics with the double-free
diagnostic, the state at the panic being exactly the entry state — no
partial update happens. -/
theorem double_free_panics (st : MachineState) (p h fuel : Nat) (b : Block)
    (hph : parent_heap st p st.head fuel = .ok (some h))
    (hb : readBlock st (p - Block.sizeOf) = some b)
    (hf : b.free = true) :
    free p st fuel = .error ("double free detected", st) := by
  unfold free
  rw [hph]
  simp [hb, hf]

/-- C7 witness: `p=allocate(10); release(p); release(p)` — the second
release panics with the double-free diagnostic and no state change. -/
theorem double_free_panics_witness :
    free 4184 scnDouble 100 = .error ("double free detected", scnDouble) :=
  double_free_panics scnDouble 4184 4096 100
    { next := 0, previous := 0, data_size := 16, free := true } rfl rfl rfl

/-- Key arithmetic fact behind `align`: masking with `2^64 - 8` zeroes the
low three bits. -/
theorem land_mask (n : Nat) (h : n < 2 ^ 64) : n &&& (2 ^ 64 - 8) = 8 * (n / 8) := by
  have hm : (2 : Nat) ^ 64 - 8 = (2 ^ 61 - 1) <<< 3 := by rw [Nat.shiftLeft_eq]; norm_num
  have hq : 8 * (n / 8) = (n >>> 3) <<< 3 := by
    rw [Nat.shiftLeft_eq, Nat.shiftRight_eq_div_pow]
    norm_num
    ring
  rw [hm, hq]
  apply Nat.eq_of_testBit_eq
  intro i
  rw [Nat.testBit_land, Nat.testBit_shiftLeft, Nat.testBit_shiftLeft, Nat.testBit_shiftRight,
    Nat.testBit_two_pow_sub_one]
  by_cases h3 : 3 ≤ i
  · by_cases h64 : i < 64
    · have h61 : i - 3 < 61 := by omega
      simp [h3, h61, Nat.add_sub_cancel' h3]
    · have hged : ¬ (i - 3 < 61) := by omega
      have hf : n.testBit i = false := by
        apply Nat.testBit_lt_two_pow
        calc n < 2 ^ 64 := h
          _ ≤ 2 ^ i := Nat.pow_le_pow_right (by norm_num) (by omega)
      simp [h3, hged, hf, Nat.add_sub_cancel' h3]
  · simp [h3]

/-- C8: `malloc` first computes `align 8 size`, which (absent 64-bit
wrap-around) is `size` rounded up to a multiple of 8; the classifier
`HeapGroup::from` then labels the aligned size Tiny when it is at most
`TINY_BLOCK_SIZE` = `TINY_HEAP_ALLOCATION_SIZE / 128` = 128, Small when it is
larger but at most `SMALL_BLOCK_SIZE` = `SMALL_HEAP_ALLOCATION_SIZE / 128`
= 1024, and Large otherwise. -/
theorem align_and_classify (size : Nat) (h : size + 7 < 2 ^ 64) :
    align 8 size = 8 * ((size + 7) / 8) ∧
    size ≤ align 8 size ∧ align 8 size < size + 8 ∧ align 8 size % 8 = 0 ∧
    TINY_BLOCK_SIZE = 128 ∧ SMALL_BLOCK_SIZE = 1024 ∧
    (align 8 size ≤ 128 → HeapGroup.fromSize (align 8 size) = .Tiny (align 8 size)) ∧
    (128 < align 8 size → align 8 size ≤ 1024 →
       HeapGroup.fromSize (align 8 size) = .Small (align 8 size)) ∧
    (1024 < align 8 size → HeapGroup.fromSize (align 8 size) = .Large (align 8 size)) := by
  have ha : align 8 size = 8 * ((size + 7) / 8) := by
    unfold align
    have h1 : size + 8 - 1 = size + 7 := by omega
    rw [h1, Nat.mod_eq_of_lt h]
    exact land_mask _ h
  refine ⟨ha, by omega, by omega, by omega, by norm_num [TINY_BLOCK_SIZE,
    TINY_HEAP_ALLOCATION_SIZE, PAGE_SIZE], by norm_num [SMALL_BLOCK_SIZE,
    SMALL_HEAP_ALLOCATION_SIZE, PAGE_SIZE], ?_, ?_, ?_⟩
  · intro hle
    simp [HeapGroup.fromSize, TINY_BLOCK_SIZE, TINY_HEAP_ALLOCATION_SIZE, PAGE_SIZE]
    omega
  · intro hgt hle
    have h128 : ¬ align 8 size ≤ TINY_BLOCK_SIZE := by
      norm_num [TINY_BLOCK_SIZE, TINY_HEAP_ALLOCATION_SIZE, PAGE_SIZE]
      omega
    simp [HeapGroup.fromSize, h128, SMALL_BLOCK_SIZE, SMALL_HEAP_ALLOCATION_SIZE, PAGE_SIZE]
    omega
  · intro hgt
    have h128 : ¬ align 8 size ≤ TINY_BLOCK_SIZE := by
      norm_num [TINY_BLOCK_SIZE, TINY_HEAP_ALLOCATION_SIZE, PAGE_SIZE]
      omega
    have h1024 : ¬ align 8 size ≤ SMALL_BLOCK_SIZE := by
      norm_num [SMALL_BLOCK_SIZE, SMALL_HEAP_ALLOCATION_SIZE, PAGE_SIZE]
      omega
    simp [HeapGroup.fromSize, h128, h1024]

/-- C8 witness: request size 10 aligns to 16 and is classified Tiny. -/
theorem align_and_classify_witness :
    align 8 10 = 8 * ((10 + 7) / 8) ∧
    10 ≤ align 8 10 ∧ align 8 10 < 10 + 8 ∧ align 8 10 % 8 = 0 ∧
    TINY_BLOCK_SIZE = 128 ∧ SMALL_BLOCK_SIZE = 1024 ∧
    (align 8 10 ≤ 128 → HeapGroup.fromSize (align 8 10) = .Tiny (align 8 10)) ∧
    (128 < align 8 10 → align 8 10 ≤ 1024 →
       HeapGroup.fromSize (align 8 10) = .Small (align 8 10)) ∧
    (1024 < align 8 10 → HeapGroup.fromSize (align 8 10) = .Large (align 8 10)) :=
  align_and_classify 10 (by norm_num)

theorem dec_block_count_frame {heap : Nat} {st st' : MachineState}
    (hk : dec_block_count heap st = .ok st') :
    st'.head = st.head ∧ st'.mapped = st.mapped ∧ st'.blockMem = st.blockMem := by
  unfold dec_block_count at hk
  split at hk
  · injection hk
  · injection hk with hk; subst hk; exact ⟨rfl, rfl, rfl⟩

theorem merge_right_frame {b h : Nat} {st st' : MachineState}
    (hk : merge_right b h st = .ok st') :
    st'.head = st.head ∧ st'.mapped = st.mapped := by
  unfold merge_right at hk
  repeat' first | split at hk | dsimp only at hk
  all_goals first
    | (exact Except.noConfusion hk)
    | (injection hk with hk; subst hk; exact ⟨rfl, rfl⟩)
    | (obtain ⟨h1, h2, _⟩ := dec_block_count_frame hk; exact ⟨h1, h2⟩)

theorem merge_left_merge_frame {b h : Nat} {st st' : MachineState}
    (hk : merge_left_merge b h st = .ok st') :
    st'.head = st.head ∧ st'.mapped = st.mapped := by
  unfold merge_left_merge at hk
  repeat' first | split at hk | dsimp only at hk
  all_goals first
    | (exact Except.noConfusion hk)
    | (injection hk with hk; subst hk; exact ⟨rfl, rfl⟩)
    | (obtain ⟨h1, h2, _⟩ := dec_block_count_frame hk; exact ⟨h1, h2⟩)

theorem merge_left_unmap_frame {hh : Heap} {heap : Nat} {st st' : MachineState}
    (hk : merge_left_unmap hh st heap = .ok st') :
    st'.head = st.head ∧ st'.blockMem = st.blockMem ∧
      ∀ len, (st.head, len) ∈ st.mapped → (st.head, len) ∈ st'.mapped := by
  unfold merge_left_unmap mem_unmap at hk
  split at hk
  · rename_i hne
    split at hk
    · injection hk with hk
      subst hk
      refine ⟨rfl, rfl, fun len hml => ?_⟩
      refine List.mem_filter.mpr ⟨hml, ?_⟩
      simp only [ne_eq, decide_eq_true_eq]
      exact fun hq => hne hq.symm
    · exact Except.noConfusion hk
  · injection hk with hk
    subst hk
    exact ⟨rfl, rfl, fun len hml => hml⟩

theorem merge_left_unlink_next_frame {hh : Heap} {heap : Nat} {st st' : MachineState}
    (hk : merge_left_unlink_next hh st heap = .ok st') :
    st'.head = st.head ∧ st'.blockMem = st.blockMem ∧
      ∀ len, (st.head, len) ∈ st.mapped → (st.head, len) ∈ st'.mapped := by
  unfold merge_left_unlink_next at hk
  split at hk
  · split at hk
    · exact Except.noConfusion hk
    · obtain ⟨h1, h2, h3⟩ := merge_left_unmap_frame hk
      exact ⟨h1, h2, h3⟩
  · exact merge_left_unmap_frame hk

theorem merge_left_reclaim_frame {heap : Nat} {st st' : MachineState}
    (hk : merge_left_reclaim heap st = .ok st') :
    st'.head = st.head ∧ st'.blockMem = st.blockMem ∧
      ∀ len, (st.head, len) ∈ st.mapped → (st.head, len) ∈ st'.mapped := by
  unfold merge_left_reclaim at hk
  repeat' split at hk
  all_goals first
    | (exact Except.noConfusion hk)
    | (injection hk with hk; subst hk; exact ⟨rfl, rfl, fun len hml => hml⟩)
    | (exact merge_left_unlink_next_frame hk)
    | (obtain ⟨h1, h2, h3⟩ := merge_left_unlink_next_frame hk; exact ⟨h1, h2, h3⟩)

theorem merge_left_frame {b h : Nat} {st st' : MachineState}
    (hk : merge_left b h st = .ok st') :
    st'.head = st.head ∧
      ∀ len, (st.head, len) ∈ st.mapped → (st.head, len) ∈ st'.mapped := by
  unfold merge_left at hk
  split at hk
  · exact Except.noConfusion hk
  · rename_i st1 hm
    obtain ⟨h1, h2⟩ := merge_left_merge_frame hm
    obtain ⟨h3, _, h4⟩ := merge_left_reclaim_frame hk
    refine ⟨h3.trans h1, fun len hml => ?_⟩
    rw [h1] at h4
    exact h4 len (h2 ▸ hml)

theorem mem_map_mono {st : MachineState} {len p : Nat} {st1 : MachineState}
    (hk : mem_map st len = some (p, st1)) :
    ∀ e, e ∈ st.mapped → e ∈ st1.mapped := by
  unfold mem_map at hk
  split at hk
  · exact Option.noConfusion hk
  · injection hk with hk
    rw [Prod.mk.injEq] at hk
    obtain ⟨_, h2⟩ := hk
    subst h2
    exact fun e he => List.mem_cons_of_mem _ he

theorem create_heap_mono {s : Nat} {st : MachineState} {p : Nat} {st1 : MachineState}
    (hk : create_heap s st = .ok (p, st1)) :
    ∀ e, e ∈ st.mapped → e ∈ st1.mapped := by
  unfold create_heap at hk
  dsimp only at hk
  split at hk
  · exact Except.noConfusion hk
  · rename_i q stq hq
    injection hk with hk
    rw [Prod.mk.injEq] at hk
    obtain ⟨_, h2⟩ := hk
    subst h2
    exact fun e he => mem_map_mono hq e he

theorem get_heap_mono {s : Nat} {st : MachineState} {f : Nat} {r : Option Nat}
    {st1 : MachineState} (hk : get_heap s st f = .ok (r, st1)) :
    ∀ e, e ∈ st.mapped → e ∈ st1.mapped := by
  unfold get_heap at hk
  split at hk
  · split at hk
    · exact Except.noConfusion hk
    · rename_i q stq hq
      split at hk
      · exact Except.noConfusion hk
      · injection hk with hk
        rw [Prod.mk.injEq] at hk
        obtain ⟨_, h2⟩ := hk
        subst h2
        exact fun e he => create_heap_mono hq e he
  · split at hk
    · exact Except.noConfusion hk
    · injection hk with hk
      rw [Prod.mk.injEq] at hk
      obtain ⟨_, h2⟩ := hk
      subst h2
      exact fun e he => he

theorem malloc_in_heap_frame {s h : Nat} {st : MachineState} {f a : Nat}
    {st' : MachineState} (hk : malloc_in_heap s h st f = .ok (a, st')) :
    st'.head = st.head ∧ st'.mapped = st.mapped := by
  unfold malloc_in_heap at hk
  repeat' first | split at hk | dsimp only at hk
  all_goals first
    | (exact Except.noConfusion hk)
    | (injection hk with hk; rw [Prod.mk.injEq] at hk; obtain ⟨_, h2⟩ := hk; subst h2;
       exact ⟨rfl, rfl⟩)

/-- C10: release never unmaps the arena the global head points to, and
allocation never unmaps anything.  First conjunct: a completed `free` leaves
the head pointer unchanged and keeps the head arena's mapping alive (the
side condition — no block header sits at the head address — rules out
reading the arena header as a block header, which the model treats as
undefined behaviour anyway).  Second conjunct: a completed `malloc` only
adds mappings.  Together: once an arena exists, the head arena stays mapped
across every allocate/release sequence. -/
theorem release_never_unmaps_head_arena :
    (∀ (st : MachineState) (p fuel : Nat) (st' : MachineState),
        free p st fuel = .ok st' →
        readBlock st st.head = none →
        st'.head = st.head ∧
          ∀ len, (st.head, len) ∈ st.mapped → (st.head, len) ∈ st'.mapped) ∧
    (∀ (n : Nat) (st : MachineState) (fuel a : Nat) (st' : MachineState),
        malloc n st fuel = .ok (a, st') →
        ∀ e, e ∈ st.mapped → e ∈ st'.mapped) := by
  constructor
  · intro st p fuel st' hk hnb
    unfold free at hk
    split at hk
    · exact Except.noConfusion hk
    · -- large path
      dsimp only at hk
      split at hk
      · exact Except.noConfusion hk
      · rename_i b hb
        split at hk
        · unfold mem_unmap at hk
          split at hk
          · injection hk with hk
            subst hk
            refine ⟨rfl, fun len hml => List.mem_filter.mpr ⟨hml, ?_⟩⟩
            simp only [ne_eq, decide_eq_true_eq]
            intro hq
            rw [hq] at hnb
            rw [hnb] at hb
            exact Option.noConfusion hb
          · exact Except.noConfusion hk
        · exact Except.noConfusion hk
    · -- arena path
      dsimp only at hk
      split at hk
      · exact Except.noConfusion hk
      · rename_i b hb
        split at hk
        · exact Except.noConfusion hk
        · split at hk
          · exact Except.noConfusion hk
          · rename_i hh hhh
            split at hk
            · exact Except.noConfusion hk
            · rename_i st3 hm3
              obtain ⟨hr1, hr2⟩ := merge_right_frame hm3
              obtain ⟨hl1, hl2⟩ := merge_left_frame hk
              have hr1' : st3.head = st.head := hr1
              have hr2' : st3.mapped = st.mapped := hr2
              refine ⟨hl1.trans hr1', fun len hml => ?_⟩
              rw [hr1'] at hl2
              exact hl2 len (hr2' ▸ hml)
  · intro n st fuel a st' hk
    unfold malloc at hk
    dsimp only at hk
    split at hk
    · -- large path
      split at hk
      · exact Except.noConfusion hk
      · rename_i q stq hq
        injection hk with hk
        rw [Prod.mk.injEq] at hk
        obtain ⟨_, h2⟩ := hk
        subst h2
        exact fun e he => mem_map_mono hq e he
    · split at hk
      · exact Except.noConfusion hk
      · -- get_heap found an arena
        rename_i h st1 hg
        obtain ⟨_, hm⟩ := malloc_in_heap_frame hk
        exact fun e he => hm ▸ get_heap_mono hg e he
      · -- fresh arena pushed at the front
        rename_i st1 hg
        split at hk
        · exact Except.noConfusion hk
        · rename_i q stq hq
          split at hk
          · exact Except.noConfusion hk
          · rename_i oh hoh
            try dsimp only at hk
            obtain ⟨_, hm⟩ := malloc_in_heap_frame hk
            intro e he
            have h1 : e ∈ st1.mapped := get_heap_mono hg e he
            have h2 : e ∈ stq.mapped := create_heap_mono hq e h1
            exact hm ▸ h2

theorem isFree_of_read {st : MachineState} {x : Nat} {b : Block}
    (h : readBlock st x = some b) : isFree st x = b.free := by
  unfold isFree
  rw [h]

/-- C5: a completed release restores the coalescing invariant.  If the freed
block `bp = p - 32` lies on the owning arena's block list `L` — with `L`
duplicate-free, its `previous` pointers consistent, and no two adjacent
blocks both free — then `free` completes and afterwards the arena's block
list again has no two adjacent free blocks.  The remaining hypotheses (`hhh`
through `hm`) state that the arena header and its list neighbours are
readable and its mapping is live, which every allocator-built state
satisfies; they let the arena-reclamation step of `merge_left` run. -/
theorem release_preserves_no_adjacent_free
    (st : MachineState) (p h fuel f : Nat) (L : List Nat) (bb : Block) (hh : Heap)
    (hph : parent_heap st p st.head fuel = .ok (some h))
    (hL : chase st (h + Heap.sizeOf) f = .ok L)
    (hmem : p - Block.sizeOf ∈ L)
    (hnd : L.Nodup)
    (hprev : prevOk st 0 L = true)
    (hadj : noAdjFree st L = true)
    (hbb : readBlock st (p - Block.sizeOf) = some bb)
    (hbf : bb.free = false)
    (hhh : readHeap st h = some hh)
    (hhp : hh.previous ≠ 0 → (readHeap st hh.previous).isSome = true)
    (hhn : hh.next ≠ 0 → (readHeap st hh.next).isSome = true)
    (hm : (h, hh.total_size) ∈ st.mapped) :
    ∃ (st' : MachineState) (L' : List Nat),
      free p st fuel = .ok st' ∧
      chase st' (h + Heap.sizeOf) (L'.length + 1) = .ok L' ∧
      noAdjFree st' L' = true := by
  classical
  obtain ⟨l₁, l₂, hL12⟩ := List.append_of_mem hmem
  subst hL12
  have hchain := chase_ok_chainSeg hL
  obtain ⟨m, hc1, hc2⟩ := chainSeg_split hchain
  obtain ⟨hmbp, hbp0, b0, hb0, hc3⟩ := hc2
  rw [hmbp] at hc1
  rw [hbb] at hb0
  injection hb0 with hb0
  subst hb0
  -- nodup decomposition
  have hndc := hnd
  rw [List.nodup_append] at hndc
  obtain ⟨hnd1, hnd2, hdisj⟩ := hndc
  obtain ⟨hbpl₂, hnd3⟩ := List.nodup_cons.mp hnd2
  -- previous-pointer of the freed block
  have hprev2 := (prevOk_split st l₁ 0 ((p - Block.sizeOf) :: l₂) hprev).2
  rw [prevOk_cons, Bool.and_eq_true] at hprev2
  have hbbprev : bb.previous = l₁.getLastD 0 := by
    have hx := hprev2.1
    rw [hbb] at hx
    exact of_decide_eq_true hx
  -- adjacency decomposition
  have hadjA := hadj
  rw [noAdjFree_append st l₁ ((p - Block.sizeOf) :: l₂), Bool.and_eq_true,
    Bool.and_eq_true] at hadjA
  obtain ⟨⟨hadj1, hadj2⟩, hadjJ⟩ := hadjA
  -- the state after marking the block free and bumping free_size
  have hfree0 := free_exec hph hbb hbf hhh
  set bb1 : Block := { bb with free := true } with hbb1def
  set st2 : MachineState :=
    writeHeap (writeBlock st (p - Block.sizeOf) bb1) h
      { hh with free_size := hh.free_size + (bb.data_size + Block.sizeOf) } with hst2def
  have hst2bp : readBlock st2 (p - Block.sizeOf) = some bb1 := by
    rw [hst2def, readBlock_writeHeap, readBlock_writeBlock_same]
  have hst2other : ∀ x, x ≠ p - Block.sizeOf → readBlock st2 x = readBlock st x := by
    intro x hx
    rw [hst2def, readBlock_writeHeap, readBlock_writeBlock_ne _ _ (fun hq => hx hq.symm)]
  have hst2h : readHeap st2 h =
      some { hh with free_size := hh.free_size + (bb.data_size + Block.sizeOf) } := by
    rw [hst2def, readHeap_writeHeap_same]
  have hst2hx : ∀ x, x ≠ h → readHeap st2 x = readHeap st x := by
    intro x hx
    rw [hst2def, readHeap_writeHeap_ne _ _ (fun hq => hx hq.symm), readHeap_writeBlock]
  -- Stage 1: run merge_right and summarise its effect
  have hbundle : ∃ (st3 : MachineState) (bbR : Block) (l₂R : List Nat),
      merge_right (p - Block.sizeOf) h st2 = .ok st3 ∧
      readBlock st3 (p - Block.sizeOf) = some bbR ∧
      bbR.free = true ∧
      bbR.previous = bb.previous ∧
      chainSeg st3 bbR.next l₂R 0 ∧
      (∀ x ∈ l₁, readBlock st3 x = readBlock st x) ∧
      noAdjFree st3 ((p - Block.sizeOf) :: l₂R) = true ∧
      l₂R.Sublist l₂ ∧
      (∃ hh3 : Heap, readHeap st3 h = some hh3 ∧ hh3.previous = hh.previous ∧
        hh3.next = hh.next ∧ hh3.total_size = hh.total_size) ∧
      (∀ x, x ≠ h → readHeap st3 x = readHeap st x) ∧
      st3.mapped = st.mapped ∧ st3.head = st.head := by
    have hl₁ne : ∀ x ∈ l₁, x ≠ p - Block.sizeOf := by
      intro x hx heq
      exact hdisj hx (heq ▸ List.mem_cons_self _ l₂)
    cases l₂ with
    | nil =>
        have hn0 : bb.next = 0 := hc3
        refine ⟨st2, bb1, [],
          merge_right_skip_null hst2bp hn0, hst2bp, rfl, rfl, hn0,
          (fun x hx => hst2other x (hl₁ne x hx)), rfl, List.nil_sublist _,
          ⟨_, hst2h, rfl, rfl, rfl⟩, hst2hx, rfl, rfl⟩
    | cons C l₂' =>
        obtain ⟨hbnC, hC0, cb, hcb, hc4⟩ := hc3
        have hCbp : C ≠ p - Block.sizeOf := by
          intro heq
          exact hbpl₂ (by rw [← heq]; exact List.mem_cons_self C l₂')
        have hst2C : readBlock st2 C = some cb := by
          rw [hst2other C hCbp]
          exact hcb
        have hbb1n : bb1.next = C := hbnC
        cases hcbf : cb.free with
        | false =>
            refine ⟨st2, bb1, C :: l₂',
              merge_right_skip_used hst2bp (by rw [hbb1n]; exact hC0)
                (by rw [hbb1n]; exact hst2C) hcbf,
              hst2bp, rfl, rfl, ?_, (fun x hx => hst2other x (hl₁ne x hx)), ?_,
              List.Sublist.refl _, ⟨_, hst2h, rfl, rfl, rfl⟩, hst2hx, rfl, rfl⟩
            · -- chain unchanged
              refine chainSeg_congr (show chainSeg st bb1.next (C :: l₂') 0 from
                ⟨hbnC, hC0, cb, hcb, hc4⟩) ?_
              intro x hx c hc
              refine ⟨c, ?_, rfl⟩
              rw [hst2other x (fun heq => hbpl₂ (heq ▸ hx))]
              exact hc
            · -- no adjacent free pair
              rw [noAdjFree_cc]
              refine ⟨Or.inr (by rw [isFree_of_read hst2C]; exact hcbf), ?_⟩
              have htl := (noAdjFree_cc.mp hadj2).2
              rw [noAdjFree_congr st st2 ?_]
              · exact htl
              · intro x hx
                unfold isFree
                rw [hst2other x (fun heq => hbpl₂ (heq ▸ hx))]
        | true =>
            cases l₂' with
            | nil =>
                have hcd0 : cb.next = 0 := hc4
                refine ⟨_, { bb1 with
                    data_size := bb1.data_size + cb.data_size + Block.sizeOf,
                    next := cb.next }, [],
                  merge_right_merge_null hst2bp (by rw [hbb1n]; exact hC0)
                    (by rw [hbb1n]; exact hst2C) hcbf hcd0 hst2h, ?_, rfl, rfl, hcd0,
                  ?_, rfl, List.nil_sublist _, ⟨_, readHeap_writeHeap_same _ _ _,
                    rfl, rfl, rfl⟩, ?_, rfl, rfl⟩
                · rw [readBlock_writeHeap, readBlock_writeBlock_same]
                · intro x hx
                  rw [readBlock_writeHeap,
                    readBlock_writeBlock_ne _ _ (fun hq => hl₁ne x hx hq.symm)]
                  exact hst2other x (hl₁ne x hx)
                · intro x hx
                  rw [readHeap_writeHeap_ne _ _ (fun hq => hx hq.symm), readHeap_writeBlock]
                  exact hst2hx x hx
            | cons D l₂'' =>
                obtain ⟨hcD, hD0, db, hdb, hc5⟩ := hc4
                have hDl₂ : D ∈ C :: D :: l₂'' := by simp
                have hDbp : D ≠ p - Block.sizeOf := by
                  intro heq
                  exact hbpl₂ (by rw [← heq]; exact hDl₂)
                have hst2D : readBlock st2 D = some db := by
                  rw [hst2other D hDbp]
                  exact hdb
                have hmr := merge_right_merge_step hst2bp (by rw [hbb1n]; exact hC0)
                  (by rw [hbb1n]; exact hst2C) hcbf (by rw [hcD]; exact hD0)
                  (by rw [hcD]; exact hst2D) (by rw [hcD]; exact fun hq => hDbp hq.symm)
                  hst2h
                rw [hcD] at hmr
                obtain ⟨hCD, hnd4⟩ := List.nodup_cons.mp hnd3
                obtain ⟨hDl₂'', hnd5⟩ := List.nodup_cons.mp hnd4
                have hl₂''bp : ∀ x ∈ l₂'', x ≠ p - Block.sizeOf := by
                  intro x hx heq
                  exact hbpl₂ (by rw [← heq]; simp [hx])
                refine ⟨_, { bb1 with
                    data_size := bb1.data_size + cb.data_size + Block.sizeOf,
                    next := D }, D :: l₂'', hmr, ?_, rfl, rfl, ?_, ?_, ?_, ?_,
                  ⟨_, readHeap_writeHeap_same _ _ _, rfl, rfl, rfl⟩, ?_, rfl, rfl⟩
                · rw [readBlock_writeHeap, readBlock_writeBlock_ne _ _ hDbp,
                    readBlock_writeBlock_same]
                · -- chain: D with previous rewritten, then the old tail
                  refine ⟨rfl, hD0, { db with previous := p - Block.sizeOf }, ?_, ?_⟩
                  · rw [readBlock_writeHeap, readBlock_writeBlock_same]
                  · show chainSeg _ db.next l₂'' 0
                    refine chainSeg_congr hc5 ?_
                    intro x hx c hc
                    refine ⟨c, ?_, rfl⟩
                    rw [readBlock_writeHeap,
                      readBlock_writeBlock_ne _ _ (fun hq => hDl₂'' (by rw [hq]; exact hx)),
                      readBlock_writeBlock_ne _ _ (fun hq => hl₂''bp x hx hq.symm)]
                    rw [hst2other x (hl₂''bp x hx)]
                    exact hc
                · intro x hx
                  rw [readBlock_writeHeap,
                    readBlock_writeBlock_ne _ _
                      (fun hq => hdisj hx (by rw [← hq]; exact List.mem_cons_of_mem _ hDl₂)),
                    readBlock_writeBlock_ne _ _ (fun hq => hl₁ne x hx hq.symm)]
                  exact hst2other x (hl₁ne x hx)
                · -- (bp, D) not both free, and the old tail stays clean
                  rw [noAdjFree_cc]
                  have hCfree : isFree st C = true := by
                    rw [isFree_of_read hcb]
                    exact hcbf
                  have htl := (noAdjFree_cc.mp hadj2).2
                  have hpairCD := (noAdjFree_cc.mp htl).1
                  have hDfree : isFree st D = false := by
                    rcases hpairCD with hq | hq
                    · rw [hCfree] at hq
                      exact absurd hq (by simp)
                    · exact hq
                  refine ⟨Or.inr ?_, ?_⟩
                  · unfold isFree
                    rw [readBlock_writeHeap, readBlock_writeBlock_same]
                    rw [isFree_of_read hdb] at hDfree
                    exact hDfree
                  · have htl2 := (noAdjFree_cc.mp htl).2
                    rw [noAdjFree_congr st _ ?_]
                    · exact htl2
                    · intro x hx
                      rcases List.mem_cons.mp hx with hx1 | hx2
                      · subst hx1
                        unfold isFree
                        rw [readBlock_writeHeap, readBlock_writeBlock_same, hdb]
                      · unfold isFree
                        rw [readBlock_writeHeap,
                          readBlock_writeBlock_ne _ _ (fun hq => hDl₂'' (by rw [hq]; exact hx2)),
                          readBlock_writeBlock_ne _ _ (fun hq => hl₂''bp x hx2 hq.symm),
                          hst2other x (hl₂''bp x hx2)]
                · exact List.Sublist.cons _ (List.Sublist.refl _)
                · intro x hx
                  rw [readHeap_writeHeap_ne _ _ (fun hq => hx hq.symm), readHeap_writeBlock,
                    readHeap_writeBlock]
                  exact hst2hx x hx
  obtain ⟨st3, bbR, l₂R, R1, R2, R3, R4, R5, R6, R7, R8,
    ⟨hh3, R9a, R9b, R9c, R9d⟩, R10, R11a, R11b⟩ := hbundle
  have hl₂Rnd : l₂R.Nodup := R8.nodup hnd3
  have hl₂Rsub : ∀ x ∈ l₂R, x ∈ l₂ := fun x hx => R8.subset hx
  have hc1' : chainSeg st3 (h + Heap.sizeOf) l₁ (p - Block.sizeOf) :=
    chainSeg_congr hc1 (fun x hx c hc => ⟨c, by rw [R6 x hx]; exact hc, rfl⟩)
  have hflagl₁ : ∀ x ∈ l₁, isFree st3 x = isFree st x := by
    intro x hx
    unfold isFree
    rw [R6 x hx]
  have hnoadjl₁3 : noAdjFree st3 l₁ = true := by
    rw [noAdjFree_congr _ _ hflagl₁]
    exact hadj1
  -- Stage 3 (shared): reclaim and conclude
  have hfinish : ∀ (st4 : MachineState) (L' : List Nat) (hh4 : Heap),
      merge_left_merge (p - Block.sizeOf) h st3 = .ok st4 →
      chainSeg st4 (h + Heap.sizeOf) L' 0 →
      noAdjFree st4 L' = true →
      readHeap st4 h = some hh4 →
      hh4.previous = hh.previous → hh4.next = hh.next → hh4.total_size = hh.total_size →
      (∀ x, x ≠ h → readHeap st4 x = readHeap st x) →
      st4.mapped = st.mapped → st4.head = st.head →
      L' ≠ [] →
      ∃ (st' : MachineState) (L'' : List Nat),
        free p st fuel = .ok st' ∧
        chase st' (h + Heap.sizeOf) (L''.length + 1) = .ok L'' ∧
        noAdjFree st' L'' = true := by
    intro st4 L' hh4 hml hch hadj4 hr4 hp4 hn4 ht4 hx4 hm4 hhd4 hne4
    have hB : hh4.block_count = 1 → (readBlock st4 (h + Heap.sizeOf)).isSome = true := by
      intro _
      cases L' with
      | nil => exact absurd rfl hne4
      | cons x r =>
          obtain ⟨hx0, _, c, hcred, _⟩ := hch
          rw [hx0, hcred]
          rfl
    have hP : hh4.previous ≠ 0 → (readHeap st4 hh4.previous).isSome = true := by
      intro hq
      by_cases hph2 : hh4.previous = h
      · rw [hph2, hr4]; rfl
      · rw [hx4 _ hph2, hp4]
        exact hhp (hp4 ▸ hq)
    have hN : hh4.next ≠ 0 → (readHeap st4 hh4.next).isSome = true := by
      intro hq
      by_cases hph2 : hh4.next = h
      · rw [hph2, hr4]; rfl
      · rw [hx4 _ hph2, hn4]
        exact hhn (hn4 ▸ hq)
    have hM : h ≠ st4.head → (h, hh4.total_size) ∈ st4.mapped := by
      intro _
      rw [ht4, hm4]
      exact hm
    obtain ⟨st5, hrec, hbm⟩ := merge_left_reclaim_runs hr4 hB hP hN hM
    refine ⟨st5, L', ?_, ?_, ?_⟩
    · rw [hfree0, R1]
      show merge_left (p - Block.sizeOf) h st3 = .ok st5
      unfold merge_left
      rw [hml]
      exact hrec
    · exact chainSeg_chase (chainSeg_congr hch
        (fun x hx c hc => ⟨c, by rw [readBlock_eq_of_blockMem_eq hbm]; exact hc, rfl⟩))
    · rw [noAdjFree_congr _ _ (fun x _ => isFree_eq_of_blockMem_eq hbm x)]
      exact hadj4
  -- Stage 2: run merge_left's coalescing half
  rcases List.eq_nil_or_concat l₁ with hl₁nil | ⟨l₁', A, hl₁c⟩
  on_goal 2 => rw [List.concat_eq_append] at hl₁c
  · -- the freed block is first in the list: no left merge
    subst hl₁nil
    have hprev0 : bbR.previous = 0 := by
      rw [R4, hbbprev]
      rfl
    have hml : merge_left_merge (p - Block.sizeOf) h st3 = .ok st3 :=
      merge_left_merge_skip_first R2 hprev0
    have hs0bp : h + Heap.sizeOf = p - Block.sizeOf := hc1'
    exact hfinish st3 ((p - Block.sizeOf) :: l₂R) hh3 hml
      ⟨hs0bp, hbp0, bbR, R2, R5⟩ R7 R9a R9b R9c R9d R10 R11a R11b (by simp)
  · -- the freed block has a list predecessor A
    subst hl₁c
    have hAmem : A ∈ l₁' ++ [A] := by simp
    have hbbA : bb.previous = A := by
      rw [hbbprev, List.getLastD_concat]
    have hA0 : A ≠ 0 := chainSeg_ne_zero hc1 A hAmem
    obtain ⟨ab, hab⟩ := chainSeg_read hc1 A hAmem
    have hab3 : readBlock st3 A = some ab := by
      rw [R6 A hAmem]
      exact hab
    obtain ⟨mA, hcp1, hcp2⟩ := chainSeg_split hc1'
    obtain ⟨hmA, _, ab', hab', hcp3⟩ := hcp2
    rw [hmA] at hcp1
    rw [hab3] at hab'
    injection hab' with hab'
    subst hab'
    have hAnl₁' : A ∉ l₁' := by
      have := hnd1
      rw [List.nodup_append] at this
      intro hq
      exact this.2.2 hq (by simp)
    have hadj1' := hadj1
    rw [noAdjFree_append st l₁' [A], Bool.and_eq_true, Bool.and_eq_true] at hadj1'
    obtain ⟨⟨hadjp, _⟩, hadjJ2⟩ := hadj1'
    have hl₁'sub : ∀ x ∈ l₁', x ∈ l₁' ++ [A] := fun x hx => List.mem_append_left _ hx
    cases habf : ab.free with
    | false =>
        have hml : merge_left_merge (p - Block.sizeOf) h st3 = .ok st3 :=
          merge_left_merge_skip_used R2 (by rw [R4, hbbA]; exact hA0)
            (by rw [R4, hbbA]; exact hab3) habf
        have hch4 : chainSeg st3 (h + Heap.sizeOf) ((l₁' ++ [A]) ++ (p - Block.sizeOf) :: l₂R) 0 :=
          chainSeg_join hc1' ⟨rfl, hbp0, bbR, R2, R5⟩
        have hadj4 : noAdjFree st3 ((l₁' ++ [A]) ++ (p - Block.sizeOf) :: l₂R) = true := by
          rw [noAdjFree_append, Bool.and_eq_true, Bool.and_eq_true]
          refine ⟨⟨hnoadjl₁3, R7⟩, ?_⟩
          rw [List.getLast?_concat]
          exact joinOk_some_some (Or.inl (by rw [isFree_of_read hab3]; exact habf))
        exact hfinish st3 _ hh3 hml hch4 hadj4 R9a R9b R9c R9d R10 R11a R11b (by simp)
    | true =>
        -- A is free: it absorbs the freed block
        cases hl₂Rc : l₂R with
        | nil =>
            rw [hl₂Rc] at R5 R7
            have hR50 : bbR.next = 0 := R5
            have hml := merge_left_merge_null R2 (by rw [R4, hbbA]; exact hA0)
              (by rw [R4, hbbA]; exact hab3) habf hR50 R9a
            rw [R4, hbbA] at hml
            set abM : Block :=
              { ab with next := bbR.next,
                        data_size := ab.data_size + bbR.data_size + Block.sizeOf }
              with habMdef
            set st4 : MachineState :=
              writeHeap (writeBlock st3 A abM) h
                { hh3 with block_count := hh3.block_count - 1 } with hst4def
            have hreadA : readBlock st4 A = some abM := by
              rw [hst4def, readBlock_writeHeap, readBlock_writeBlock_same]
            have hreadother : ∀ x, x ≠ A → readBlock st4 x = readBlock st3 x := by
              intro x hx
              rw [hst4def, readBlock_writeHeap,
                readBlock_writeBlock_ne _ _ (fun hq => hx hq.symm)]
            have hch4 : chainSeg st4 (h + Heap.sizeOf) (l₁' ++ [A]) 0 := by
              refine chainSeg_join
                (chainSeg_congr hcp1 (fun x hx c hc =>
                  ⟨c, by rw [hreadother x (fun hq => hAnl₁' (hq ▸ hx))]; exact hc, rfl⟩)) ?_
              refine ⟨rfl, hA0, abM, hreadA, ?_⟩
              show chainSeg st4 bbR.next [] 0
              exact hR50
            have hadj4 : noAdjFree st4 (l₁' ++ [A]) = true := by
              rw [noAdjFree_congr st3 _ ?_]
              · exact hnoadjl₁3
              · intro x hx
                rcases List.mem_append.mp hx with hx1 | hx2
                · unfold isFree
                  rw [hreadother x (fun hq => hAnl₁' (hq ▸ hx1))]
                · have hxA : x = A := by
                    rcases List.mem_cons.mp hx2 with hq | hq
                    · exact hq
                    · exact absurd hq (List.not_mem_nil x)
                  subst hxA
                  rw [isFree_of_read hreadA, isFree_of_read hab3]
            refine hfinish st4 (l₁' ++ [A]) { hh3 with block_count := hh3.block_count - 1 }
              hml hch4 hadj4 ?_ R9b R9c R9d ?_ ?_ ?_ (by simp)
            · rw [hst4def, readHeap_writeHeap_same]
            · intro x hx
              rw [hst4def, readHeap_writeHeap_ne _ _ (fun hq => hx hq.symm), readHeap_writeBlock]
              exact R10 x hx
            · rw [hst4def]
              exact R11a
            · rw [hst4def]
              exact R11b
        | cons E l₂R' =>
            rw [hl₂Rc] at R5 R7
            obtain ⟨hbE, hE0, eb, heb3, hc6⟩ := R5
            have hEl₂ : E ∈ l₂ := hl₂Rsub E (by rw [hl₂Rc]; simp)
            have hEA : A ≠ E := by
              intro hq
              exact hdisj hAmem (List.mem_cons_of_mem _ (by rw [hq]; exact hEl₂))
            have hEnl₁' : E ∉ l₁' :=
              fun hq => hdisj (hl₁'sub E hq) (List.mem_cons_of_mem _ hEl₂)
            obtain ⟨hEl₂R', hl₂Rnd'⟩ := List.nodup_cons.mp (hl₂Rc ▸ hl₂Rnd)
            have hml := merge_left_merge_step R2 (by rw [R4, hbbA]; exact hA0)
              (by rw [R4, hbbA]; exact hab3) habf (by rw [hbE]; exact hE0)
              (by rw [R4, hbbA, hbE]; exact hEA) (by rw [hbE]; exact heb3) R9a
            rw [R4, hbbA, hbE] at hml
            set abM : Block :=
              { ab with next := E, data_size := ab.data_size + bbR.data_size + Block.sizeOf }
              with habMdef
            set ebM : Block := { eb with previous := A } with hebMdef
            set st4 : MachineState :=
              writeHeap (writeBlock (writeBlock st3 A abM) E ebM) h
                { hh3 with block_count := hh3.block_count - 1 } with hst4def
            have hreadA : readBlock st4 A = some abM := by
              rw [hst4def, readBlock_writeHeap,
                readBlock_writeBlock_ne _ _ (fun hq => hEA hq.symm),
                readBlock_writeBlock_same]
            have hreadE : readBlock st4 E = some ebM := by
              rw [hst4def, readBlock_writeHeap, readBlock_writeBlock_same]
            have hreadother : ∀ x, x ≠ A → x ≠ E → readBlock st4 x = readBlock st3 x := by
              intro x hx1 hx2
              rw [hst4def, readBlock_writeHeap,
                readBlock_writeBlock_ne _ _ (fun hq => hx2 hq.symm),
                readBlock_writeBlock_ne _ _ (fun hq => hx1 hq.symm)]
            have hl₂R'ne : ∀ x ∈ l₂R', x ≠ A ∧ x ≠ E := by
              intro x hx
              constructor
              · intro hq
                refine hdisj hAmem (List.mem_cons_of_mem _ ?_)
                rw [← hq]
                exact hl₂Rsub x (by rw [hl₂Rc]; simp [hx])
              · intro hq
                exact hEl₂R' (hq ▸ hx)
            have hch4 : chainSeg st4 (h + Heap.sizeOf) (l₁' ++ A :: E :: l₂R') 0 := by
              refine chainSeg_join
                (chainSeg_congr hcp1 (fun x hx c hc =>
                  ⟨c, by rw [hreadother x (fun hq => hAnl₁' (hq ▸ hx))
                    (fun hq => hEnl₁' (hq ▸ hx))]; exact hc, rfl⟩)) ?_
              refine ⟨rfl, hA0, abM, hreadA, ?_⟩
              show chainSeg st4 E (E :: l₂R') 0
              refine ⟨rfl, hE0, ebM, hreadE, ?_⟩
              show chainSeg st4 eb.next l₂R' 0
              refine chainSeg_congr hc6 ?_
              intro x hx c hc
              refine ⟨c, ?_, rfl⟩
              rw [hreadother x (hl₂R'ne x hx).1 (hl₂R'ne x hx).2]
              exact hc
            have hfreeE : isFree st3 E = false := by
              have hpair := (noAdjFree_cc.mp R7).1
              rcases hpair with hq | hq
              · rw [isFree_of_read R2, R3] at hq
                exact absurd hq (by simp)
              · exact hq
            have hadj4 : noAdjFree st4 (l₁' ++ A :: E :: l₂R') = true := by
              rw [noAdjFree_append, Bool.and_eq_true, Bool.and_eq_true]
              refine ⟨⟨?_, ?_⟩, ?_⟩
              · -- prefix flags unchanged
                rw [noAdjFree_congr st _ ?_]
                · exact hadjp
                · intro x hx
                  unfold isFree
                  rw [hreadother x (fun hq => hAnl₁' (hq ▸ hx))
                    (fun hq => hEnl₁' (hq ▸ hx)), R6 x (hl₁'sub x hx)]
              · -- A :: E :: tail
                rw [noAdjFree_cc]
                refine ⟨Or.inr ?_, ?_⟩
                · rw [isFree_of_read hreadE]
                  rw [isFree_of_read heb3] at hfreeE
                  exact hfreeE
                · have htail := (noAdjFree_cc.mp R7).2
                  rw [noAdjFree_congr st3 _ ?_]
                  · exact htail
                  · intro x hx
                    rcases List.mem_cons.mp hx with hx1 | hx2
                    · subst hx1
                      rw [isFree_of_read hreadE, isFree_of_read heb3]
                    · unfold isFree
                      rw [hreadother x (hl₂R'ne x hx2).1 (hl₂R'ne x hx2).2]
              · -- junction between the prefix and A
                cases hgl : l₁'.getLast? with
                | none => exact joinOk_none_left _ _
                | some w =>
                    have hwmem : w ∈ l₁' := List.mem_of_mem_getLast? hgl
                    have hwflag : isFree st w = false := by
                      rw [hgl] at hadjJ2
                      have hj : joinOk st (some w) (some A) = true := hadjJ2
                      unfold joinOk at hj
                      rw [Bool.not_eq_true', Bool.and_eq_false_iff] at hj
                      rcases hj with hq | hq
                      · exact hq
                      · rw [isFree_of_read hab, habf] at hq
                        exact absurd hq (by simp)
                    refine joinOk_some_some (Or.inl ?_)
                    have h1 : isFree st4 w = isFree st3 w := by
                      unfold isFree
                      rw [hreadother w (fun hq => hAnl₁' (hq ▸ hwmem))
                        (fun hq => hEnl₁' (hq ▸ hwmem))]
                    rw [h1, hflagl₁ w (hl₁'sub w hwmem)]
                    exact hwflag
            refine hfinish st4 (l₁' ++ A :: E :: l₂R')
              { hh3 with block_count := hh3.block_count - 1 } hml hch4 hadj4 ?_
              R9b R9c R9d ?_ ?_ ?_ (by simp)
            · rw [hst4def, readHeap_writeHeap_same]
            · intro x hx
              rw [hst4def, readHeap_writeHeap_ne _ _ (fun hq => hx hq.symm),
                readHeap_writeBlock, readHeap_writeBlock]
              exact R10 x hx
            · rw [hst4def]
              exact R11a
            · rw [hst4def]
              exact R11b

/-- C5 witness: in the three-block arena `[4152 used, 4248 free, 4344 used]`
releasing the first block (payload 4184) completes — coalescing it with its
free right neighbour — and the resulting block list has no two adjacent free
blocks. -/
theorem release_preserves_no_adjacent_free_witness :
    ∃ (st' : MachineState) (L' : List Nat),
      free 4184 scnThree 100 = .ok st' ∧
      chase st' (4096 + Heap.sizeOf) (L'.length + 1) = .ok L' ∧
      noAdjFree st' L' = true :=
  release_preserves_no_adjacent_free scnThree 4184 4096 100 100
    [4152, 4248, 4344]
    { next := 4248, previous := 0, data_size := 64, free := false }
    { group := .Tiny 64, next := 0, previous := 0, total_size := 16384,
      free_size := 16136, block_count := 3 }
    rfl rfl (by decide) (by decide) rfl rfl rfl rfl rfl (by decide) (by decide) (by decide)

/-- C9: on every allocation that takes the split path (a free block `fb` with
`data_size ≠ aligned size` is found in an arena whose walk-list is `L`), the
carved remainder's `next` pointer is 0 (null) — not `fb`'s former successor —
so after the split the arena's block list is the prefix of `L` up to `fb`
followed by the remainder, the remainder is the last element, and every block
that followed `fb` in `L` is no longer reachable by `next` pointers from the
list head.  The hypotheses `hg`, `hfb` pin the branch taken by `malloc`;
`hnd`/`hfresh` say the walk-list has no duplicate addresses and the remainder
address (inside `fb`'s old payload) carries no list entry — true of every
state the allocator builds. -/
theorem split_sets_remainder_next_null
    (st : MachineState) (n fuel f h fb : Nat) (L : List Nat) (hh : Heap) (b : Block)
    (hsz : align 8 n ≤ SMALL_HEAP_ALLOCATION_SIZE)
    (hg : get_heap (align 8 n) st fuel = .ok (some h, st))
    (hhh : readHeap st h = some hh)
    (hbc : hh.block_count ≠ 0)
    (hfb : get_free_block (align 8 n) h st fuel = .ok (some fb))
    (hb : readBlock st fb = some b)
    (hne : b.data_size ≠ align 8 n)
    (hL : chase st (h + Heap.sizeOf) f = .ok L)
    (hmem : fb ∈ L)
    (hnd : L.Nodup)
    (hfresh : fb + Block.sizeOf + align 8 n ∉ L) :
    ∃ (st' : MachineState) (l₁ l₂ : List Nat),
      L = l₁ ++ fb :: l₂ ∧
      malloc n st fuel = .ok (fb + Block.sizeOf, st') ∧
      readBlock st' (fb + Block.sizeOf + align 8 n) =
        some { next := 0, previous := fb,
               data_size := b.data_size - Block.sizeOf - align 8 n, free := true } ∧
      chase st' (h + Heap.sizeOf) (l₁.length + 3) =
        .ok (l₁ ++ [fb, fb + Block.sizeOf + align 8 n]) ∧
      (l₁ ++ [fb, fb + Block.sizeOf + align 8 n]).getLast? =
        some (fb + Block.sizeOf + align 8 n) ∧
      ∀ x ∈ l₂, x ∉ l₁ ++ [fb, fb + Block.sizeOf + align 8 n] := by
  obtain ⟨l₁, l₂, hL12⟩ := List.append_of_mem hmem
  subst hL12
  have hchain := chase_ok_chainSeg hL
  obtain ⟨m, hc1, hc2⟩ := chainSeg_split hchain
  obtain ⟨hmfb, hfb0, b0, hb0, hc3⟩ := hc2
  rw [hmfb] at hc1
  rw [hb] at hb0
  injection hb0 with hb0
  subst hb0
  -- abbreviations
  set sz := align 8 n with hszdef
  set rem : Nat := fb + Block.sizeOf + sz with hremdef
  set remB : Block :=
    { next := 0, previous := fb, data_size := b.data_size - Block.sizeOf - sz,
      free := true } with hrembdef
  set fbB : Block := { b with data_size := sz, free := false, next := rem } with hfbbdef
  set st' : MachineState :=
    writeHeap (writeBlock (writeBlock st rem remB) fb fbB) h
      { hh with block_count := hh.block_count + 1 } with hstdef
  have hmal : malloc n st fuel = .ok (fb + Block.sizeOf, st') :=
    malloc_split hsz hg hhh hbc hfb hb hne
  -- how reads change
  have h32 : Block.sizeOf = 32 := rfl
  have hfbne : fb ≠ rem := by
    rw [hremdef]
    omega
  have hread_rem : readBlock st' rem = some remB := by
    rw [hstdef, readBlock_writeHeap, readBlock_writeBlock_ne _ _ hfbne,
      readBlock_writeBlock_same]
  have hread_fb : readBlock st' fb = some fbB := by
    rw [hstdef, readBlock_writeHeap, readBlock_writeBlock_same]
  have hread_other : ∀ x, x ≠ fb → x ≠ rem → readBlock st' x = readBlock st x := by
    intro x hx1 hx2
    rw [hstdef, readBlock_writeHeap, readBlock_writeBlock_ne _ _ (fun hq => hx1 hq.symm),
      readBlock_writeBlock_ne _ _ (fun hq => hx2 hq.symm)]
  -- membership facts from Nodup
  have hnd' := hnd
  rw [List.nodup_append] at hnd'
  obtain ⟨hnd1, hnd2, hdisj⟩ := hnd'
  have hfb_not_l₁ : fb ∉ l₁ := by
    intro hq
    exact hdisj hq (List.mem_cons_self fb l₂)
  have hrem_not_l₁ : rem ∉ l₁ := fun hq => hfresh (List.mem_append_left _ hq)
  have hrem_not_l₂ : rem ∉ l₂ := fun hq =>
    hfresh (List.mem_append_right _ (List.mem_cons_of_mem fb hq))
  -- the prefix chain survives
  have hc1' : chainSeg st' (h + Heap.sizeOf) l₁ fb := by
    refine chainSeg_congr hc1 ?_
    intro x hx c hc
    refine ⟨c, ?_, rfl⟩
    rw [hread_other x (fun hq => hfb_not_l₁ (hq ▸ hx)) (fun hq => hrem_not_l₁ (hq ▸ hx))]
    exact hc
  -- the new tail [fb, rem]
  have hc2' : chainSeg st' fb [fb, rem] 0 := by
    refine ⟨rfl, hfb0, fbB, hread_fb, ?_⟩
    show chainSeg st' fbB.next [rem] 0
    have hfbnext : fbB.next = rem := rfl
    rw [hfbnext]
    refine ⟨rfl, ?_, remB, hread_rem, ?_⟩
    · rw [hremdef]; omega
    · show remB.next = 0
      rfl
  have hcall : chainSeg st' (h + Heap.sizeOf) (l₁ ++ [fb, rem]) 0 :=
    chainSeg_join hc1' hc2'
  have hchase' : chase st' (h + Heap.sizeOf) (l₁.length + 3) = .ok (l₁ ++ [fb, rem]) := by
    have := chainSeg_chase hcall
    rw [List.length_append] at this
    have hlen : l₁.length + 2 + 1 = l₁.length + 3 := by omega
    rw [show ([fb, rem] : List Nat).length = 2 from rfl] at this
    rw [hlen] at this
    exact this
  refine ⟨st', l₁, l₂, rfl, hmal, hread_rem, hchase', ?_, ?_⟩
  · rw [show l₁ ++ [fb, rem] = (l₁ ++ [fb]) ++ [rem] by simp]
    exact List.getLast?_concat _
  · intro x hx
    intro hq
    rcases List.mem_append.mp hq with hq1 | hq2
    · exact hdisj hq1 (List.mem_cons_of_mem fb hx)
    · rcases List.mem_cons.mp hq2 with hq3 | hq4
      · subst hq3
        exact (List.nodup_cons.mp hnd2).1 hx
      · rcases List.mem_cons.mp hq4 with hq5 | hq6
        · exact hrem_not_l₂ (hq5 ▸ hx)
        · exact absurd hq6 (List.not_mem_nil x)

/-- C9 witness: the concrete split-then-refit run.  Before the refit the tiny
arena's list is `[4152, 4248]` with the free block 4152 about to be split;
the theorem instantiated there yields the prefix `l₁ = []`, `l₂ = [4248]`,
the remainder at 4200 with `next = 0`, the new list `[4152, 4200]`, and 4248
unreachable. -/
theorem split_sets_remainder_next_null_witness :
    ∃ (st' : MachineState) (l₁ l₂ : List Nat),
      [4152, 4248] = l₁ ++ 4152 :: l₂ ∧
      malloc 16 scnSplitPre 100 = .ok (4152 + Block.sizeOf, st') ∧
      readBlock st' (4152 + Block.sizeOf + align 8 16) =
        some { next := 0, previous := 4152,
               data_size := 64 - Block.sizeOf - align 8 16, free := true } ∧
      chase st' (4096 + Heap.sizeOf) (l₁.length + 3) =
        .ok (l₁ ++ [4152, 4152 + Block.sizeOf + align 8 16]) ∧
      (l₁ ++ [4152, 4152 + Block.sizeOf + align 8 16]).getLast? =
        some (4152 + Block.sizeOf + align 8 16) ∧
      ∀ x ∈ l₂, x ∉ l₁ ++ [4152, 4152 + Block.sizeOf + align 8 16] :=
  split_sets_remainder_next_null scnSplitPre 16 100 100 4096 4152 [4152, 4248]
    { group := .Tiny 64, next := 0, previous := 0, total_size := 16384,
      free_size := 16232, block_count := 2 }
    { next := 4248, previous := 0, data_size := 64, free := true }
    (by decide) rfl rfl (by decide) rfl rfl (by decide) rfl (by decide) (by decide) (by decide)

/-- C10 witness: releasing the only allocation keeps the head arena (4096)
mapped and the head pointer unchanged; the allocation itself only added a
mapping. -/
theorem release_never_unmaps_head_arena_witness :
    (scnDouble.head = scnOne.head ∧
      ∀ len, (scnOne.head, len) ∈ scnOne.mapped → (scnOne.head, len) ∈ scnDouble.mapped) ∧
    (∀ e, e ∈ (initState [4096]).mapped → e ∈ scnOne.mapped) :=
  ⟨release_never_unmaps_head_arena.1 scnOne 4184 100 scnDouble rfl rfl,
   release_never_unmaps_head_arena.2 10 (initState [4096]) 100 4184 scnOne rfl⟩

end Halloc
